import Mathlib

/-!
# nginx-app-configurer: a shallow embedding of `main.go`

The service keeps, for every identifier, a record file `<id>.json` and a rendered
configuration `<id>.conf` in one directory, and sends SIGHUP to the containers whose
name matches a regular expression after each change.

The handlers `Add`, `Update`, `Get`, `Delete` and `SignalContainers` are translated
statement by statement.  The world they act on is explicit: the files of the
configuration directory and the log of calls made to the Docker client.  What the
program takes from libraries it does not define (the template, the regular
expression, the Docker client, `encoding/json`, `net/url`) is a parameter of the
model; `path.Join` is modelled after the Go standard library because it decides
which file an identifier names.  Go strings and byte slices are modelled as
strings, read byte by byte: a character below 256 stands for the byte of that value.

A path of the file system is absent, a regular file, or blocked (its `os.Stat`
fails with an error other than not-exist); a file may refuse to be overwritten,
removed, opened or read.  A refused write or removal changes nothing.  Not
modelled: the lines `SignalContainers` prints to standard output.
-/

namespace NginxAppConfigurer

/-- File contents, request bodies and response bodies. -/
abbrev Bytes := String

/-! ## The change request -/

/-- The format for the requests sent to the service (`type ChangeRequest struct`). -/
structure ChangeRequest where
  Identifier : String
  URL : String
  Host : String
  Port : String
deriving DecidableEq, Repr

/-- What the program observes of a `*url.URL`: the results of `Hostname()` and `Port()`. -/
structure ParsedURL where
  Hostname : String
  Port : String
deriving DecidableEq, Repr

/-- The standard-library functions the handlers call: `url.Parse`, `json.Marshal`
and `json.Unmarshal` (into a `ChangeRequest`). -/
structure Lib where
  urlParse : String → Except String ParsedURL
  jsonMarshal : ChangeRequest → Except String Bytes
  jsonUnmarshal : Bytes → Except String ChangeRequest

/-- An incoming request with its response writer: the route variable
`mux.Vars(r)["identifier"]`, the result of reading the body
(`ioutil.ReadAll(r.Body)`), and the error of `w.Write(contents)` on the response
writer (`none` is Go's `nil`). -/
structure Request where
  identifier : String
  body : Except String Bytes
  responseWrite : Bytes → Option String

/-- The response of a handler: status code and body.  A handler that writes nothing
answers 200 with an empty body. -/
structure Response where
  status : Nat
  body : Bytes
deriving DecidableEq, Repr

/-- Go's `http.Error(w, msg, code)`: the status code and the message followed by a newline. -/
def httpError (msg : String) (code : Nat) : Response :=
  ⟨code, msg ++ "\n"⟩

/-- Go's `errors.Wrap(err, msg)` / `errors.Wrapf`, as the text of the wrapped error. -/
def errorsWrap (err msg : String) : String :=
  msg ++ ": " ++ err

/-- The function `parsebody`: read the body and unmarshal it into a fresh `ChangeRequest`. -/
def parsebody (L : Lib) (r : Request) : Except String ChangeRequest :=
  match r.body with
  | .error err => .error (errorsWrap err "error reading request body")
  | .ok body =>
    match L.jsonUnmarshal body with
    | .error err => .error (errorsWrap err "error unmarshalling request body")
    | .ok c => .ok c

/-- The method `InitChangeRequest`: set `Host` and `Port` from the URL when the URL is
not empty.  The Go method updates the receiver in place; here the updated record is
returned, and an error leaves no record. -/
def InitChangeRequest (L : Lib) (c : ChangeRequest) : Except String ChangeRequest :=
  if c.URL ≠ "" then
    match L.urlParse c.URL with
    | .error err => .error err
    | .ok u => .ok { c with Host := u.Hostname, Port := u.Port }
  else
    .ok c

/-! ## `path.Join` -/

/-- The backtracking step of Go's `path.Clean` on a `..` element
(`out.w--; for out.w > dotdot && out.index(out.w) != '/' { out.w-- }`).
The output buffer is kept reversed: its head is the last byte written. -/
def cleanBacktrack (dotdot : Nat) : List Char → List Char
  | [] => []
  | c :: out => if dotdot < out.length ∧ c ≠ '/' then cleanBacktrack dotdot out else out

/-- The separator Go's `path.Clean` writes before a real path element
(`if rooted && out.w != 1 || !rooted && out.w != 0 { out.append('/') }`). -/
def cleanSep (rooted : Bool) (out : List Char) : List Char :=
  if (rooted = true ∧ out.length ≠ 1) ∨ (rooted = false ∧ out.length ≠ 0) then '/' :: out else out

/-- The `..` case of Go's `path.Clean`: backtrack if possible, else write `..` when
the path is not rooted; the new output buffer and the new value of `dotdot`. -/
def cleanDotDot (rooted : Bool) (out : List Char) (dotdot : Nat) : List Char × Nat :=
  if dotdot < out.length then
    (cleanBacktrack dotdot out, dotdot)
  else if rooted = false then
    let out2 : List Char := '.' :: '.' :: (if 0 < out.length then '/' :: out else out)
    (out2, out2.length)
  else
    (out, dotdot)

/-- The main loop of Go's `path.Clean` over the unread input.  The flag says
whether the loop is inside the inner `for` that copies a path element
(`true`) or at the start of an element (`false`); `out` is the reversed output
buffer and `dotdot` the index below which the output may not be backtracked. -/
def cleanLoop (rooted : Bool) : Bool → List Char → Nat → List Char → List Char
  | _, out, _, [] => out
  | true, out, dotdot, c :: rest =>
    if c = '/' then cleanLoop rooted false out dotdot rest
    else cleanLoop rooted true (c :: out) dotdot rest
  | false, out, _, [c] =>
    if c = '/' then out
    else if c = '.' then out
    else c :: cleanSep rooted out
  | false, out, dotdot, c :: d :: rest =>
    if c = '/' then
      -- empty path element
      cleanLoop rooted false out dotdot (d :: rest)
    else if c = '.' ∧ d = '/' then
      -- . element
      cleanLoop rooted false out dotdot (d :: rest)
    else if c = '.' ∧ d = '.' ∧ (rest = [] ∨ rest.head? = some '/') then
      -- .. element: remove to last /
      cleanLoop rooted false (cleanDotDot rooted out dotdot).1 (cleanDotDot rooted out dotdot).2 rest
    else
      -- real path element: add slash if needed, then copy the element
      cleanLoop rooted true (c :: cleanSep rooted out) dotdot (d :: rest)

/-- Go's `path.Clean` on the bytes of a path. -/
def pathCleanChars (path : List Char) : List Char :=
  match path with
  | [] => ['.']
  | c :: rest =>
    let out : List Char :=
      if c = '/' then cleanLoop true false ['/'] 1 rest
      else cleanLoop false false [] 0 (c :: rest)
    if out.length = 0 then ['.'] else out.reverse

/-- Go's `path.Join` for two elements: empty elements are ignored, the others are
joined by a slash and the result is cleaned; two empty elements give the empty string. -/
def pathJoin (dir elem : String) : String :=
  if dir.data = [] ∧ elem.data = [] then ""
  else if dir.data = [] then ⟨pathCleanChars elem.data⟩
  else if elem.data = [] then ⟨pathCleanChars dir.data⟩
  else ⟨pathCleanChars (dir.data ++ '/' :: elem.data)⟩

/-! ## The configuration directory -/

/-- The state of one path of the file system. -/
inductive Node where
  /-- No such file: `os.Stat` reports an error for which `os.IsNotExist` holds. -/
  | absent
  /-- A regular file with its contents; `writable` says whether it can be
  overwritten, `removable` whether it can be removed, `openable` whether it can be
  opened for reading and `readable` whether reading the opened file succeeds. -/
  | file (data : Bytes) (writable removable openable readable : Bool)
  /-- A path that cannot be examined: `os.Stat` fails with an error other than
  not-exist (permission denied), and so does every other operation on it. -/
  | blocked
deriving DecidableEq, Repr

/-- The files of the system, by (cleaned) path. -/
abbrev FS := String → Node

/-- The errors of the file operations. -/
inductive OSError where
  | notExist
  | permission
deriving DecidableEq, Repr

/-- Go's `os.IsNotExist(err)`, on an error value that may be `nil` (`none`). -/
def osIsNotExist (err : Option OSError) : Bool :=
  match err with
  | some .notExist => true
  | _ => false

/-- The text of a `*os.PathError`. -/
def OSError.text (e : OSError) (op path : String) : String :=
  op ++ " " ++ path ++ ": " ++
    (match e with
     | .notExist => "no such file or directory"
     | .permission => "permission denied")

/-- The text `err.Error()` of the error value of a file operation. -/
def errorText (err : Option OSError) (op path : String) : String :=
  match err with
  | some e => e.text op path
  | none => "<nil>"

/-- The error of `os.Stat(path)`: `none` is Go's `nil`. -/
def osStat (fs : FS) (path : String) : Option OSError :=
  match fs path with
  | .absent => some .notExist
  | .file _ _ _ _ _ => none
  | .blocked => some .permission

/-- Go's `ioutil.WriteFile(path, data, 0644)`: create the file, which its owner
may then read, write and remove, or replace the contents of the file. -/
def ioutilWriteFile (fs : FS) (path : String) (data : Bytes) : Except OSError FS :=
  match fs path with
  | .absent => .ok (fun p => if p = path then .file data true true true true else fs p)
  | .file _ true rm op rd =>
    .ok (fun p => if p = path then .file data true rm op rd else fs p)
  | .file _ false _ _ _ => .error .permission
  | .blocked => .error .permission

/-- Go's `os.Remove(path)`. -/
def osRemove (fs : FS) (path : String) : Except OSError FS :=
  match fs path with
  | .absent => .error .notExist
  | .file _ _ true _ _ => .ok (fun p => if p = path then .absent else fs p)
  | .file _ _ false _ _ => .error .permission
  | .blocked => .error .permission

/-- An opened file (`*os.File`): the contents a read will deliver, and whether
the read succeeds. -/
structure OpenFile where
  data : Bytes
  readable : Bool
deriving DecidableEq, Repr

/-- Go's `os.Open(path)`. -/
def osOpen (fs : FS) (path : String) : Except OSError OpenFile :=
  match fs path with
  | .absent => .error .notExist
  | .file data _ _ true rd => .ok ⟨data, rd⟩
  | .file _ _ _ false _ => .error .permission
  | .blocked => .error .permission

/-- Go's `ioutil.ReadAll(reader)` on a file opened at `path`. -/
def ioutilReadAll (path : String) (reader : OpenFile) : Except String Bytes :=
  if reader.readable = true then .ok reader.data
  else .error ("read " ++ path ++ ": input/output error")

/-! ## Docker -/

/-- The signals of `docker.Signal` the model distinguishes. -/
inductive DockerSignal where
  | SIGHUP
  | SIGKILL
  | SIGTERM
deriving DecidableEq, Repr

/-- The options of a kill call (`docker.KillContainerOptions`). -/
structure KillContainerOptions where
  ID : String
  Signal : DockerSignal
deriving DecidableEq, Repr

/-- A listed container (`docker.APIContainers`): its identifier and its names. -/
structure APIContainers where
  ID : String
  Names : List String
deriving DecidableEq, Repr

/-- The Docker client: the result of listing the containers, and for every kill call
its error (`none` is Go's `nil`). -/
structure DockerClient where
  ListContainers : Except String (List APIContainers)
  KillContainer : KillContainerOptions → Option String

/-- A call made to the Docker client. -/
inductive DockerCall where
  | listContainers
  | killContainer (opts : KillContainerOptions)
deriving DecidableEq, Repr

/-! ## The application -/

/-- The `App` of the program: the configuration directory, the parsed template (as
the function `Template.Execute` computes), the Docker client and the regular
expression for container names (as `Matcher.MatchString`). -/
structure App where
  ConfigDir : String
  Template : ChangeRequest → Except String Bytes
  Docker : DockerClient
  Matcher : String → Bool

/-- The world the handlers act on: the files, and the calls made to the Docker
client so far, oldest first. -/
structure World where
  fs : FS
  docker : List DockerCall

/-- The method `GenerateConfig`: execute the template on the change request. -/
def App.GenerateConfig (a : App) (c : ChangeRequest) : Except String Bytes :=
  match a.Template c with
  | .error err => .error err
  | .ok buf => .ok buf

/-- The path `path.Join(a.ConfigDir, fmt.Sprintf("%s.json", identifier))`. -/
def App.jsonpath (a : App) (identifier : String) : String :=
  pathJoin a.ConfigDir (identifier ++ ".json")

/-- The path `path.Join(a.ConfigDir, fmt.Sprintf("%s.conf", identifier))`. -/
def App.configpath (a : App) (identifier : String) : String :=
  pathJoin a.ConfigDir (identifier ++ ".conf")

/-- The name tested against the matcher: `strings.TrimPrefix(name, "/")` when the
name has the prefix `/`, the name itself otherwise. -/
def trimSlash (name : String) : String :=
  match name.data with
  | [] => name
  | c :: rest => if c = '/' then ⟨rest⟩ else name

/-- The inner loop of `SignalContainers` over the names of one container, from
the current value of the variable `signal`. -/
def signalOfNames (a : App) : List String → Bool → Bool
  | [], signal => signal
  | name :: names, signal =>
    if a.Matcher (trimSlash name) = true then signalOfNames a names true
    else signalOfNames a names signal

/-- The outer loop of `SignalContainers` over the listed containers: the returned
error (`none` is `nil`) and the log of Docker calls. -/
def signalLoop (a : App) : List APIContainers → List DockerCall → Option String × List DockerCall
  | [], log => (none, log)
  | container :: containers, log =>
    if signalOfNames a container.Names false = true then
      let killopts : KillContainerOptions := { ID := container.ID, Signal := .SIGHUP }
      match a.Docker.KillContainer killopts with
      | some err => (some err, log ++ [.killContainer killopts])
      | none => signalLoop a containers (log ++ [.killContainer killopts])
    else
      signalLoop a containers log

/-- The method `SignalContainers`: send a HUP signal to the containers that have a
name matching the regular expression. -/
def App.SignalContainers (a : App) (w : World) : Option String × World :=
  match a.Docker.ListContainers with
  | .error err =>
    (some (errorsWrap err "error listing containers"),
      { w with docker := w.docker ++ [.listContainers] })
  | .ok containers =>
    let r := signalLoop a containers (w.docker ++ [.listContainers])
    (r.1, { w with docker := r.2 })

/-- The common tail of `Add` and `Update`: serialize the JSON file and the
configuration file to the file system, then signal the containers. -/
def App.writeAndSignal (L : Lib) (a : App) (w : World) (change : ChangeRequest) (cfg : Bytes)
    (jsonpath configpath : String) : Response × World :=
  match L.jsonMarshal change with
  | .error err => (httpError err 500, w)
  | .ok json =>
    match ioutilWriteFile w.fs jsonpath json with
    | .error err => (httpError (err.text "open" jsonpath) 500, w)
    | .ok fs1 =>
      match ioutilWriteFile fs1 configpath cfg with
      | .error err => (httpError (err.text "open" configpath) 500, { w with fs := fs1 })
      | .ok fs2 =>
        match a.SignalContainers { w with fs := fs2 } with
        | (some err, w2) => (httpError (errorsWrap err "error HUPing container(s)") 500, w2)
        | (none, w2) => (⟨200, ""⟩, w2)

/-- The handler `Add`: create a configuration based on the incoming JSON. -/
def App.Add (L : Lib) (a : App) (w : World) (r : Request) : Response × World :=
  match parsebody L r with
  | .error err => (httpError err 400, w)
  | .ok parsed =>
    match InitChangeRequest L parsed with
    | .error err => (httpError err 500, w)
    | .ok change =>
      match a.GenerateConfig change with
      | .error err => (httpError err 500, w)
      | .ok cfg =>
        let jsonpath := a.jsonpath change.Identifier
        let configpath := a.configpath change.Identifier
        if osStat w.fs jsonpath = none then
          (httpError ("path exists already " ++ jsonpath) 400, w)
        else if osStat w.fs configpath = none then
          (httpError ("path exists already " ++ configpath) 400, w)
        else
          a.writeAndSignal L w change cfg jsonpath configpath

/-- The handler `Update`: modify a configuration based on the incoming JSON. -/
def App.Update (L : Lib) (a : App) (w : World) (r : Request) : Response × World :=
  let identifier := r.identifier
  match parsebody L r with
  | .error err => (httpError err 400, w)
  | .ok parsed =>
    match InitChangeRequest L parsed with
    | .error err => (httpError err 500, w)
    | .ok change =>
      match a.GenerateConfig change with
      | .error err => (httpError err 500, w)
      | .ok cfg =>
        let jsonpath := a.jsonpath identifier
        let configpath := a.configpath identifier
        if osIsNotExist (osStat w.fs jsonpath) = true then
          (httpError (errorsWrap (errorText (osStat w.fs jsonpath) "stat" jsonpath)
            ("path does not exist: " ++ jsonpath)) 404, w)
        else if osIsNotExist (osStat w.fs configpath) = true then
          (httpError (errorsWrap (errorText (osStat w.fs configpath) "stat" configpath)
            ("path does not exist: " ++ configpath)) 404, w)
        else
          a.writeAndSignal L w change cfg jsonpath configpath

/-- The handler `Get`: return the stored record of the identifier parsed out of the
URL.  When writing the contents fails the handler calls `http.Error` with 500, and
that is the response of the model. -/
def App.Get (a : App) (w : World) (r : Request) : Response × World :=
  let identifier := r.identifier
  let jsonpath := a.jsonpath identifier
  if osIsNotExist (osStat w.fs jsonpath) = true then
    (httpError (errorsWrap (errorText (osStat w.fs jsonpath) "stat" jsonpath)
      ("path does not exist: " ++ jsonpath)) 404, w)
  else
    match osOpen w.fs jsonpath with
    | .error err =>
      (httpError (errorsWrap (err.text "open" jsonpath) ("error opening path " ++ jsonpath)) 500, w)
    | .ok reader =>
      match ioutilReadAll jsonpath reader with
      | .error err =>
        (httpError (errorsWrap err ("error reading " ++ jsonpath)) 500, w)
      | .ok contents =>
        match r.responseWrite contents with
        | some err => (httpError (errorsWrap err ("error writing " ++ jsonpath)) 500, w)
        | none => (⟨200, contents⟩, w)

/-- The handler `Delete`: remove a configuration based on the identifier parsed out
of the URL. -/
def App.Delete (a : App) (w : World) (r : Request) : Response × World :=
  let identifier := r.identifier
  let jsonpath := a.jsonpath identifier
  let configpath := a.configpath identifier
  let jsonpathexists : Bool := !(osIsNotExist (osStat w.fs jsonpath))
  if osStat w.fs jsonpath ≠ none ∧ osIsNotExist (osStat w.fs jsonpath) = false then
    (httpError (errorsWrap (errorText (osStat w.fs jsonpath) "stat" jsonpath)
      ("error checking file " ++ jsonpath)) 500, w)
  else
    let configpathexists : Bool := !(osIsNotExist (osStat w.fs configpath))
    if osStat w.fs configpath ≠ none ∧ osIsNotExist (osStat w.fs configpath) = false then
      (httpError (errorsWrap (errorText (osStat w.fs configpath) "stat" configpath)
        ("error checking file " ++ configpath)) 500, w)
    else
      match (if jsonpathexists = true then osRemove w.fs jsonpath else .ok w.fs) with
      | .error err =>
        (httpError (errorsWrap (err.text "remove" jsonpath)
          ("error removing file " ++ jsonpath)) 500, w)
      | .ok fs1 =>
        match (if configpathexists = true then osRemove fs1 configpath else .ok fs1) with
        | .error err =>
          (httpError (errorsWrap (err.text "remove" configpath)
            ("error removing file " ++ configpath)) 500, { w with fs := fs1 })
        | .ok fs2 =>
          if jsonpathexists = true ∨ configpathexists = true then
            match a.SignalContainers { w with fs := fs2 } with
            | (some err, w2) => (httpError (errorsWrap err "error HUPing container(s)") 500, w2)
            | (none, w2) => (⟨200, ""⟩, w2)
          else
            (⟨200, ""⟩, { w with fs := fs2 })

/-! ## Vocabulary of the statements -/

/-- The node is a regular file: the file exists. -/
def Node.isFile : Node → Bool
  | .file _ _ _ _ _ => true
  | _ => false

/-- The file at `path` exists in the file system. -/
def fileExists (fs : FS) (path : String) : Prop :=
  (fs path).isFile = true

/-- The file at `path` does not exist in the file system. -/
def fileMissing (fs : FS) (path : String) : Prop :=
  fs path = .absent

instance (fs : FS) (path : String) : Decidable (fileExists fs path) :=
  inferInstanceAs (Decidable ((fs path).isFile = true))

instance (fs : FS) (path : String) : Decidable (fileMissing fs path) :=
  inferInstanceAs (Decidable (fs path = .absent))

/-- The contents of the file at `path`, when it is a regular file. -/
def fileData (fs : FS) (path : String) : Option Bytes :=
  match fs path with
  | .file data _ _ _ _ => some data
  | _ => none

/-- The files after the record file and the configuration file of an identifier
are removed: the two paths are absent and every other path is unchanged. -/
def removeBoth (fs : FS) (jsonpath configpath : String) : FS :=
  fun p => if p = jsonpath ∨ p = configpath then .absent else fs p

/-- The file system with the node at `path` replaced. -/
def setNode (fs : FS) (path : String) (n : Node) : FS :=
  fun p => if p = path then n else fs p

/-- The words of the specification for the containers to signal: the container has
at least one name which, after removing one leading slash if present, matches the
pattern. -/
def specHasMatchingName (a : App) (c : APIContainers) : Bool :=
  c.Names.any (fun name => a.Matcher (trimSlash name))

/-- The kill call `SignalContainers` makes for a container. -/
def hupCall (c : APIContainers) : DockerCall :=
  .killContainer { ID := c.ID, Signal := .SIGHUP }

/-! ## A concrete instance

A small instance of the parameters, for the examples: a JSON codec for records
whose strings need no escaping, a URL parser for `scheme://host:port/...`, a
template, three containers and a matcher for the pattern `^web-`. -/

/-- The JSON text of a record whose strings need no escaping, as `json.Marshal` writes it. -/
def exampleMarshal (c : ChangeRequest) : Except String Bytes :=
  .ok ("\x7b\"identifier\":\"" ++ c.Identifier ++ "\",\"url\":\"" ++ c.URL ++
    "\",\"host\":\"" ++ c.Host ++ "\",\"port\":\"" ++ c.Port ++ "\"\x7d")

/-- Read `"key":"value"` at the head of the input: the value and the rest of the input. -/
def exampleField (key : String) (s : List Char) : Option (String × List Char) :=
  let pre : List Char := ('"' :: key.data) ++ ['"', ':', '"']
  if pre.isPrefixOf s = true then
    let rest := s.drop pre.length
    some (⟨rest.takeWhile (fun c => c != '"')⟩, (rest.dropWhile (fun c => c != '"')).drop 1)
  else
    none

/-- Read a JSON object with the four string fields in the order `exampleMarshal`
writes them. -/
def exampleUnmarshal (body : Bytes) : Except String ChangeRequest :=
  match body.data with
  | '\x7b' :: s0 =>
    match exampleField "identifier" s0 with
    | some (identifier, ',' :: s1) =>
      match exampleField "url" s1 with
      | some (url, ',' :: s2) =>
        match exampleField "host" s2 with
        | some (host, ',' :: s3) =>
          match exampleField "port" s3 with
          | some (port, ['\x7d']) => .ok ⟨identifier, url, host, port⟩
          | _ => .error "unexpected end of JSON input"
        | _ => .error "unexpected end of JSON input"
      | _ => .error "unexpected end of JSON input"
    | _ => .error "unexpected end of JSON input"
  | _ => .error "invalid character looking for beginning of value"

/-- The input after the first `://`, if there is one. -/
def exampleAfterScheme : List Char → Option (List Char)
  | [] => none
  | c :: rest =>
    if [':', '/', '/'].isPrefixOf (c :: rest) = true then some (rest.drop 2)
    else exampleAfterScheme rest

/-- A URL parser for `scheme://host:port/...`: a URL that starts with a colon has no
scheme and is an error, a URL without `://` has no host and no port. -/
def exampleUrlParse (s : String) : Except String ParsedURL :=
  match s.data with
  | ':' :: _ => .error ("parse " ++ s ++ ": missing protocol scheme")
  | _ =>
    match exampleAfterScheme s.data with
    | none => .ok ⟨"", ""⟩
    | some rest =>
      let authority := rest.takeWhile (fun c => c != '/' && c != '?' && c != '#')
      .ok ⟨⟨authority.takeWhile (fun c => c != ':')⟩,
        ⟨(authority.dropWhile (fun c => c != ':')).drop 1⟩⟩

/-- The library instance of the examples. -/
def exampleLib : Lib :=
  { urlParse := exampleUrlParse, jsonMarshal := exampleMarshal, jsonUnmarshal := exampleUnmarshal }

/-- A matcher for the pattern `^web-`: the name starts with `web-`. -/
def exampleMatcher (name : String) : Bool :=
  "web-".data.isPrefixOf name.data

/-- Three running containers, named `/web-1`, `/web-2` and `/cache-1`. -/
def exampleContainers : List APIContainers :=
  [⟨"c1", ["/web-1"]⟩, ⟨"c2", ["/web-2"]⟩, ⟨"c3", ["/cache-1"]⟩]

/-- A Docker client that lists the three containers and whose kill calls succeed. -/
def exampleDocker : DockerClient :=
  { ListContainers := .ok exampleContainers, KillContainer := fun _ => none }

/-- A Docker client that lists the three containers and cannot signal `c2`. -/
def exampleDockerFailing : DockerClient :=
  { ListContainers := .ok exampleContainers,
    KillContainer := fun opts => if opts.ID = "c2" then some "No such container: c2" else none }

/-- A template with a server line for the host and the port. -/
def exampleTemplate (c : ChangeRequest) : Except String Bytes :=
  .ok ("proxy_pass http://" ++ c.Host ++ ":" ++ c.Port ++ ";")

/-- The application of the examples. -/
def exampleApp : App :=
  { ConfigDir := "/etc/nginx/conf.d", Template := exampleTemplate, Docker := exampleDocker,
    Matcher := exampleMatcher }

/-- The application of the examples with the failing Docker client. -/
def exampleAppFailing : App :=
  { exampleApp with Docker := exampleDockerFailing }

/-- A world with no file and no Docker call. -/
def emptyWorld : World :=
  { fs := fun _ => .absent, docker := [] }

/-- The request body for identifier `app1` and URL `http://svc.local:9090`. -/
def exampleBody : Bytes :=
  "\x7b\"identifier\":\"app1\",\"url\":\"http://svc.local:9090\",\"host\":\"\",\"port\":\"\"\x7d"

/-- A request to create `app1`. -/
def exampleAddRequest : Request :=
  { identifier := "", body := .ok exampleBody, responseWrite := fun _ => none }

/-- The world after `app1` has been created in the empty world. -/
def exampleWorld : World :=
  (exampleApp.Add exampleLib emptyWorld exampleAddRequest).2

/-- A request on `/api/app1` whose body carries the identifier `other`. -/
def exampleUpdateRequest : Request :=
  { identifier := "app1",
    body := .ok "\x7b\"identifier\":\"other\",\"url\":\"http://svc.local:9091\",\"host\":\"\",\"port\":\"\"\x7d",
    responseWrite := fun _ => none }

/-- A request on `/api/app1` without a body. -/
def exampleGetRequest : Request :=
  { identifier := "app1", body := .ok "", responseWrite := fun _ => none }

/-- A request on `/api/app1` whose client is gone: writing the response fails. -/
def exampleGetRequestGone : Request :=
  { identifier := "app1", body := .ok "",
    responseWrite := fun _ => some "write tcp 127.0.0.1:8080: broken pipe" }

/-- A world in which only the record half of `app1` exists. -/
def halfWorld : World :=
  { fs := fun p =>
      if p = "/etc/nginx/conf.d/app1.json" then .file exampleBody true true true true
      else .absent,
    docker := [] }

/-- A world in which only the configuration half of `app1` exists. -/
def configOnlyWorld : World :=
  { fs := fun p =>
      if p = "/etc/nginx/conf.d/app1.conf" then
        .file "proxy_pass http://svc.local:9090;" true true true true
      else .absent,
    docker := [] }

/-- A world in which both halves of `app1` exist and the record cannot be opened. -/
def lockedWorld : World :=
  { fs := fun p =>
      if p = "/etc/nginx/conf.d/app1.json" then .file exampleBody true true false true
      else if p = "/etc/nginx/conf.d/app1.conf" then
        .file "proxy_pass http://svc.local:9090;" true true true true
      else .absent,
    docker := [] }

/-! ## An instance with the coercion of `json.Marshal`

The function `url.Parse` decodes the percent-escapes of the host, so that the
host of `http://%ff:80/` is the single byte 0xFF, which is not valid UTF-8; and
`json.Marshal` writes the six characters of the escape for U+FFFD in the place of a
byte that is not valid UTF-8, which `json.Unmarshal` reads as the three bytes of
U+FFFD.  The instance below does this for the bytes 0xF5 to 0xFF, which occur in no
UTF-8 text. -/

/-- The value of a hexadecimal digit. -/
def hexValue (c : Char) : Option Nat :=
  if '0' ≤ c ∧ c ≤ '9' then some (c.toNat - 48)
  else if 'a' ≤ c ∧ c ≤ 'f' then some (c.toNat - 87)
  else if 'A' ≤ c ∧ c ≤ 'F' then some (c.toNat - 55)
  else none

/-- The host with its percent-escapes decoded; in a host an escape may only stand
for a byte from 0x80 on, or be `%25`. -/
def unescapeHost : List Char → Option (List Char)
  | [] => some []
  | c :: rest =>
    if c = '%' then
      match rest with
      | h :: l :: rest2 =>
        match hexValue h, hexValue l with
        | some x, some y =>
          if x < 8 ∧ ¬ (h = '2' ∧ l = '5') then none
          else (unescapeHost rest2).map (fun t => Char.ofNat (16 * x + y) :: t)
        | _, _ => none
      | _ => none
    else (unescapeHost rest).map (fun t => c :: t)

/-- The URL parser of the examples with the percent-escapes of the host decoded. -/
def coercingUrlParse (s : String) : Except String ParsedURL :=
  match exampleUrlParse s with
  | .error err => .error err
  | .ok u =>
    match unescapeHost u.Hostname.data with
    | none => .error ("parse " ++ s ++ ": invalid URL escape")
    | some host => .ok ⟨⟨host⟩, u.Port⟩

/-- The string as `json.Marshal` writes it: a byte from 0xF5 to 0xFF becomes the
escape for U+FFFD. -/
def coerceToValidUTF8 (s : String) : String :=
  ⟨s.data.flatMap (fun c =>
    if 245 ≤ c.toNat ∧ c.toNat ≤ 255 then ['\\', 'u', 'f', 'f', 'f', 'd'] else [c])⟩

/-- The string as `json.Unmarshal` reads it: the escape for U+FFFD becomes the three
bytes of U+FFFD in UTF-8. -/
def decodeReplacement : List Char → List Char
  | [] => []
  | c :: rest =>
    if c = '\\' ∧ ['u', 'f', 'f', 'f', 'd'].isPrefixOf rest = true then
      -- the five characters after the backslash are copied by the call on `rest`
      '\xef' :: '\xbf' :: '\xbd' :: (decodeReplacement rest).drop 5
    else c :: decodeReplacement rest

/-- The JSON text of a record, with the coercion to valid UTF-8. -/
def coercingMarshal (c : ChangeRequest) : Except String Bytes :=
  exampleMarshal ⟨coerceToValidUTF8 c.Identifier, coerceToValidUTF8 c.URL,
    coerceToValidUTF8 c.Host, coerceToValidUTF8 c.Port⟩

/-- The record of a JSON text, with the escape for U+FFFD decoded. -/
def coercingUnmarshal (body : Bytes) : Except String ChangeRequest :=
  match exampleUnmarshal body with
  | .error err => .error err
  | .ok c =>
    .ok ⟨⟨decodeReplacement c.Identifier.data⟩, ⟨decodeReplacement c.URL.data⟩,
      ⟨decodeReplacement c.Host.data⟩, ⟨decodeReplacement c.Port.data⟩⟩

/-- The library instance with the coercion. -/
def coercingLib : Lib :=
  { urlParse := coercingUrlParse, jsonMarshal := coercingMarshal,
    jsonUnmarshal := coercingUnmarshal }

/-- A request to create `app2` with the URL `http://%ff:80/`. -/
def coercingAddRequest : Request :=
  { identifier := "",
    body := .ok "\x7b\"identifier\":\"app2\",\"url\":\"http://%ff:80/\",\"host\":\"\",\"port\":\"\"\x7d",
    responseWrite := fun _ => none }

/-- A request on `/api/app2` without a body. -/
def coercingGetRequest : Request :=
  { identifier := "app2", body := .ok "", responseWrite := fun _ => none }


/-! ## The paths of an identifier -/

theorem cleanLoop_nil (rooted mode : Bool) (out : List Char) (dotdot : Nat) :
    cleanLoop rooted mode out dotdot [] = out := by
  cases mode <;> rfl

theorem cleanLoop_copy_cons (rooted : Bool) (out : List Char) (dotdot : Nat) (c : Char)
    (rest : List Char) :
    cleanLoop rooted true out dotdot (c :: rest) =
      if c = '/' then cleanLoop rooted false out dotdot rest
      else cleanLoop rooted true (c :: out) dotdot rest := rfl

theorem cleanLoop_start_one (rooted : Bool) (out : List Char) (dotdot : Nat) (c : Char) :
    cleanLoop rooted false out dotdot [c] =
      if c = '/' then out else if c = '.' then out else c :: cleanSep rooted out := rfl

theorem cleanLoop_start_cons (rooted : Bool) (out : List Char) (dotdot : Nat) (c d : Char)
    (rest : List Char) :
    cleanLoop rooted false out dotdot (c :: d :: rest) =
      if c = '/' then cleanLoop rooted false out dotdot (d :: rest)
      else if c = '.' ∧ d = '/' then cleanLoop rooted false out dotdot (d :: rest)
      else if c = '.' ∧ d = '.' ∧ (rest = [] ∨ rest.head? = some '/') then
        cleanLoop rooted false (cleanDotDot rooted out dotdot).1 (cleanDotDot rooted out dotdot).2 rest
      else cleanLoop rooted true (c :: cleanSep rooted out) dotdot (d :: rest) := rfl

theorem getLastD_of_ne_nil {α : Type} (l : List α) (d e : α) (h : l ≠ []) :
    l.getLastD d = l.getLastD e := by
  cases l with
  | nil => exact absurd rfl h
  | cons a l => rw [List.getLastD_cons, List.getLastD_cons]

/-- The cleaning loop ends its output with the last byte of its input, when that
byte is neither a slash nor a dot. -/
theorem cleanLoop_last (rooted : Bool) (n : Nat) :
    ∀ (mode : Bool) (out : List Char) (dotdot : Nat) (rest : List Char) (d : Char),
      rest.length ≤ n →
      (mode = true → out.head? = some d) → (mode = false → rest ≠ []) →
      rest.getLastD d ≠ '/' → rest.getLastD d ≠ '.' →
      (cleanLoop rooted mode out dotdot rest).head? = some (rest.getLastD d) := by
  induction n with
  | zero =>
    intro mode out dotdot rest d hlen hout hne _ _
    have hnil : rest = [] := List.length_eq_zero.mp (Nat.le_zero.mp hlen)
    subst hnil
    cases mode with
    | true => rw [cleanLoop_nil]; exact hout rfl
    | false => exact absurd rfl (hne rfl)
  | succ n ih =>
    intro mode out dotdot rest d hlen hout hne h1 h2
    cases rest with
    | nil =>
      cases mode with
      | true => rw [cleanLoop_nil]; exact hout rfl
      | false => exact absurd rfl (hne rfl)
    | cons c rest =>
      have hlen1 : rest.length ≤ n := by simpa using hlen
      rw [List.getLastD_cons] at h1 h2 ⊢
      cases mode with
      | true =>
        rw [cleanLoop_copy_cons]
        by_cases hc : c = '/'
        · have hrest : rest ≠ [] := by
            intro h; subst h; exact h1 hc
          rw [if_pos hc, getLastD_of_ne_nil rest c d hrest]
          rw [getLastD_of_ne_nil rest c d hrest] at h1 h2
          exact ih false out dotdot rest d hlen1 (fun h => by cases h) (fun _ => hrest) h1 h2
        · rw [if_neg hc]
          exact ih true (c :: out) dotdot rest c hlen1 (fun _ => rfl) (fun h => by cases h) h1 h2
      | false =>
        cases rest with
        | nil =>
          have hc1 : c ≠ '/' := h1
          have hc2 : c ≠ '.' := h2
          rw [cleanLoop_start_one, if_neg hc1, if_neg hc2]
          rfl
        | cons e rest =>
          have hlast : (e :: rest).getLastD c = (e :: rest).getLastD d :=
            getLastD_of_ne_nil _ _ _ (by simp)
          rw [cleanLoop_start_cons]
          by_cases hc : c = '/'
          · rw [if_pos hc, hlast]
            rw [hlast] at h1 h2
            exact ih false out dotdot (e :: rest) d hlen1 (fun h => by cases h) (fun _ => by simp)
              h1 h2
          · rw [if_neg hc]
            by_cases hdot : c = '.' ∧ e = '/'
            · rw [if_pos hdot, hlast]
              rw [hlast] at h1 h2
              exact ih false out dotdot (e :: rest) d hlen1 (fun h => by cases h)
                (fun _ => by simp) h1 h2
            · rw [if_neg hdot]
              by_cases hdd : c = '.' ∧ e = '.' ∧ (rest = [] ∨ rest.head? = some '/')
              · rw [if_pos hdd]
                have hrest : rest ≠ [] := by
                  intro h; subst h
                  exact h2 (by simpa using hdd.2.1)
                have hlen2 : rest.length ≤ n := by
                  have : rest.length + 1 ≤ n := by simpa using hlen1
                  omega
                rw [List.getLastD_cons, getLastD_of_ne_nil rest e d hrest]
                rw [List.getLastD_cons, getLastD_of_ne_nil rest e d hrest] at h1 h2
                exact ih false _ _ rest d hlen2 (fun h => by cases h) (fun _ => hrest) h1 h2
              · rw [if_neg hdd]
                exact ih true (c :: cleanSep rooted out) dotdot (e :: rest) c hlen1 (fun _ => rfl)
                  (fun h => by cases h) h1 h2

/-- Cleaning a path keeps its last byte, when that byte is neither a slash nor a dot. -/
theorem pathCleanChars_getLast (p : List Char) (x d : Char) (h1 : x ≠ '/') (h2 : x ≠ '.') :
    (pathCleanChars (p ++ [x])).getLastD d = x := by
  have key : ∀ (rooted mode : Bool) (out : List Char) (dotdot : Nat) (rest : List Char),
      (mode = true → out.head? = some x) →
      (cleanLoop rooted mode out dotdot (rest ++ [x])).head? = some x := by
    intro rooted mode out dotdot rest hout
    have hl : (rest ++ [x]).getLastD x = x := by simp [List.getLastD_eq_getLast?]
    have := cleanLoop_last rooted (rest ++ [x]).length mode out dotdot (rest ++ [x]) x
      (Nat.le_refl _) hout (fun _ => by simp) (by rw [hl]; exact h1) (by rw [hl]; exact h2)
    rw [hl] at this
    exact this
  have fin : ∀ out : List Char, out.head? = some x →
      (if out.length = 0 then ['.'] else out.reverse).getLastD d = x := by
    intro out ho
    cases out with
    | nil => simp at ho
    | cons y out =>
      simp only [List.head?_cons, Option.some.injEq] at ho
      subst ho
      simp [List.getLastD_eq_getLast?]
  cases p with
  | nil =>
    have hx : ([] : List Char) ++ [x] = [x] := rfl
    rw [hx]
    unfold pathCleanChars
    simp only [if_neg h1]
    exact fin _ (key false false [] 0 [] (fun h => by cases h))
  | cons c p =>
    have hx : (c :: p) ++ [x] = c :: (p ++ [x]) := rfl
    rw [hx]
    unfold pathCleanChars
    by_cases hc : c = '/'
    · simp only [if_pos hc]
      exact fin _ (key true false ['/'] 1 p (fun h => by cases h))
    · simp only [if_neg hc]
      exact fin _ (key false false [] 0 (c :: p) (fun h => by cases h))

/-- The path of `elem` in `dir` ends with the last byte of `elem`, when that byte
is neither a slash nor a dot. -/
theorem pathJoin_getLast (dir : String) (e : List Char) (x d : Char) (h1 : x ≠ '/')
    (h2 : x ≠ '.') : (pathJoin dir ⟨e ++ [x]⟩).data.getLastD d = x := by
  unfold pathJoin
  have he : e ++ [x] ≠ [] := by simp
  by_cases hd : dir.data = []
  · simp only [hd, he, and_false, if_false, if_true]
    exact pathCleanChars_getLast e x d h1 h2
  · simp only [hd, he, false_and, if_false]
    have : dir.data ++ '/' :: (e ++ [x]) = (dir.data ++ '/' :: e) ++ [x] := by simp
    rw [this]
    exact pathCleanChars_getLast _ x d h1 h2

/-- The record file and the configuration file of an identifier are different files. -/
theorem jsonpath_ne_configpath (a : App) (identifier : String) :
    a.jsonpath identifier ≠ a.configpath identifier := by
  intro h
  have hj : (a.jsonpath identifier).data.getLastD 'x' = 'n' := by
    have : identifier ++ ".json" = ⟨(identifier.data ++ ['.', 'j', 's', 'o']) ++ ['n']⟩ := by
      apply String.ext; simp
    unfold App.jsonpath
    rw [this]
    exact pathJoin_getLast _ _ _ _ (by decide) (by decide)
  have hc : (a.configpath identifier).data.getLastD 'x' = 'f' := by
    have : identifier ++ ".conf" = ⟨(identifier.data ++ ['.', 'c', 'o', 'n']) ++ ['f']⟩ := by
      apply String.ext; simp
    unfold App.configpath
    rw [this]
    exact pathJoin_getLast _ _ _ _ (by decide) (by decide)
  rw [h, hc] at hj
  exact absurd hj (by decide)

/-! ## Signalling the containers -/

theorem signalOfNames_eq (a : App) (names : List String) (signal : Bool) :
    signalOfNames a names signal = (signal || names.any (fun name => a.Matcher (trimSlash name))) := by
  induction names generalizing signal with
  | nil => simp [signalOfNames]
  | cons name names ih =>
    unfold signalOfNames
    by_cases h : a.Matcher (trimSlash name) = true
    · rw [if_pos h, ih]; simp [h]
    · rw [if_neg h, ih]; simp [h]

/-- The flag `signal` computed by the inner loop is the predicate of the specification. -/
theorem signalOfNames_spec (a : App) (c : APIContainers) :
    signalOfNames a c.Names false = specHasMatchingName a c := by
  rw [signalOfNames_eq]; simp [specHasMatchingName]

theorem signalLoop_cons_skip (a : App) (c : APIContainers) (cs : List APIContainers)
    (log : List DockerCall) (h : specHasMatchingName a c = false) :
    signalLoop a (c :: cs) log = signalLoop a cs log := by
  have h2 : ¬ signalOfNames a c.Names false = true := by rw [signalOfNames_spec, h]; simp
  rw [signalLoop, if_neg h2]

theorem signalLoop_cons_ok (a : App) (c : APIContainers) (cs : List APIContainers)
    (log : List DockerCall) (h : specHasMatchingName a c = true)
    (hk : a.Docker.KillContainer { ID := c.ID, Signal := .SIGHUP } = none) :
    signalLoop a (c :: cs) log = signalLoop a cs (log ++ [hupCall c]) := by
  have h2 : signalOfNames a c.Names false = true := by rw [signalOfNames_spec, h]
  rw [signalLoop, if_pos h2]
  simp only [hk, hupCall]

theorem signalLoop_cons_fail (a : App) (c : APIContainers) (cs : List APIContainers)
    (log : List DockerCall) (err : String) (h : specHasMatchingName a c = true)
    (hk : a.Docker.KillContainer { ID := c.ID, Signal := .SIGHUP } = some err) :
    signalLoop a (c :: cs) log = (some err, log ++ [hupCall c]) := by
  have h2 : signalOfNames a c.Names false = true := by rw [signalOfNames_spec, h]
  rw [signalLoop, if_pos h2]
  simp only [hk, hupCall]

/-- When every kill call on a matching container succeeds, the loop returns no
error and has signalled the matching containers, in order, once each. -/
theorem signalLoop_all_ok (a : App) (cs : List APIContainers) :
    ∀ log : List DockerCall,
      (∀ c ∈ cs, specHasMatchingName a c = true →
        a.Docker.KillContainer { ID := c.ID, Signal := .SIGHUP } = none) →
      signalLoop a cs log = (none, log ++ (cs.filter (specHasMatchingName a)).map hupCall) := by
  induction cs with
  | nil => intro log _; simp [signalLoop]
  | cons c cs ih =>
    intro log hk
    have hk2 : ∀ x ∈ cs, specHasMatchingName a x = true →
        a.Docker.KillContainer { ID := x.ID, Signal := .SIGHUP } = none :=
      fun x hx => hk x (List.mem_cons_of_mem _ hx)
    cases h : specHasMatchingName a c with
    | false =>
      rw [signalLoop_cons_skip a c cs log h, ih log hk2]
      simp [List.filter_cons, h]
    | true =>
      rw [signalLoop_cons_ok a c cs log h (hk c (List.mem_cons_self _ _) h), ih _ hk2]
      simp [List.filter_cons, h]

/-- When the first failing kill call is on the container after `pre`, the loop
returns its error and has made the kill calls of the matching containers up to
and including that container, and no other. -/
theorem signalLoop_first_fail (a : App) (c : APIContainers) (post : List APIContainers)
    (err : String) (hm : specHasMatchingName a c = true)
    (hf : a.Docker.KillContainer { ID := c.ID, Signal := .SIGHUP } = some err)
    (pre : List APIContainers) :
    ∀ log : List DockerCall,
      (∀ x ∈ pre, specHasMatchingName a x = true →
        a.Docker.KillContainer { ID := x.ID, Signal := .SIGHUP } = none) →
      signalLoop a (pre ++ c :: post) log =
        (some err, log ++ ((pre ++ [c]).filter (specHasMatchingName a)).map hupCall) := by
  induction pre with
  | nil =>
    intro log _
    rw [List.nil_append, signalLoop_cons_fail a c post log err hm hf]
    simp [List.filter_cons, hm]
  | cons x pre ih =>
    intro log hk
    have hk2 : ∀ y ∈ pre, specHasMatchingName a y = true →
        a.Docker.KillContainer { ID := y.ID, Signal := .SIGHUP } = none :=
      fun y hy => hk y (List.mem_cons_of_mem _ hy)
    rw [List.cons_append]
    cases h : specHasMatchingName a x with
    | false =>
      rw [signalLoop_cons_skip a x _ log h, ih log hk2]
      simp [List.filter_cons, h]
    | true =>
      rw [signalLoop_cons_ok a x _ log h (hk x (List.mem_cons_self _ _) h), ih _ hk2]
      simp [List.filter_cons, h]

/-- The loop only appends to the log of Docker calls. -/
theorem signalLoop_log (a : App) (cs : List APIContainers) :
    ∀ log : List DockerCall, ∃ tail, (signalLoop a cs log).2 = log ++ tail := by
  induction cs with
  | nil => intro log; exact ⟨[], by simp [signalLoop]⟩
  | cons c cs ih =>
    intro log
    unfold signalLoop
    by_cases h : signalOfNames a c.Names false = true
    · simp only [if_pos h]
      cases hk : a.Docker.KillContainer { ID := c.ID, Signal := .SIGHUP } with
      | some err => exact ⟨[.killContainer { ID := c.ID, Signal := .SIGHUP }], rfl⟩
      | none =>
        obtain ⟨tail, ht⟩ := ih (log ++ [.killContainer { ID := c.ID, Signal := .SIGHUP }])
        exact ⟨.killContainer { ID := c.ID, Signal := .SIGHUP } :: tail, by simp [ht]⟩
    · simp only [if_neg h]
      exact ih log

/-- The method `SignalContainers` leaves the files alone. -/
theorem SignalContainers_fs (a : App) (w : World) : (a.SignalContainers w).2.fs = w.fs := by
  unfold App.SignalContainers
  cases a.Docker.ListContainers <;> rfl

/-- Every call of `SignalContainers` starts with a call that lists the containers. -/
theorem SignalContainers_log (a : App) (w : World) :
    ∃ tail, (a.SignalContainers w).2.docker = w.docker ++ .listContainers :: tail := by
  unfold App.SignalContainers
  cases a.Docker.ListContainers with
  | error err => exact ⟨[], rfl⟩
  | ok cs =>
    obtain ⟨tail, ht⟩ := signalLoop_log a cs (w.docker ++ [.listContainers])
    exact ⟨tail, by simp [ht]⟩

/-- The name `SignalContainers` tests is the name without one leading slash: it is
`n` exactly when the name is a slash followed by `n`, or the name does not start
with a slash and `n` is the name itself. -/
theorem trimSlash_iff (name n : String) :
    n = trimSlash name ↔
      (name = "/" ++ n ∨ (n = name ∧ ∀ rest : String, name ≠ "/" ++ rest)) := by
  have happ : ∀ t : String, ("/" ++ t).data = '/' :: t.data := by
    intro t; rw [String.data_append]; rfl
  obtain ⟨data⟩ := name
  cases data with
  | nil =>
    have ht : trimSlash ⟨[]⟩ = ⟨[]⟩ := rfl
    rw [ht]
    constructor
    · intro h
      refine Or.inr ⟨h, fun rest hr => ?_⟩
      have := congrArg String.data hr
      rw [happ] at this
      cases this
    · rintro (h | ⟨h, -⟩)
      · have := congrArg String.data h
        rw [happ] at this
        cases this
      · exact h
  | cons c rest =>
    by_cases hc : c = '/'
    · subst hc
      have ht : trimSlash ⟨'/' :: rest⟩ = ⟨rest⟩ := rfl
      rw [ht]
      constructor
      · intro h
        subst h
        exact Or.inl (String.ext (by rw [happ]))
      · rintro (h | ⟨-, h⟩)
        · have := congrArg String.data h
          rw [happ] at this
          exact String.ext (List.cons.inj this).2.symm
        · exact absurd (String.ext (by rw [happ]) : (⟨'/' :: rest⟩ : String) = "/" ++ ⟨rest⟩)
            (h ⟨rest⟩)
    · have ht : trimSlash ⟨c :: rest⟩ = ⟨c :: rest⟩ := by
        unfold trimSlash
        simp only [hc, if_false]
      rw [ht]
      constructor
      · intro h
        refine Or.inr ⟨h, fun t hr => ?_⟩
        have := congrArg String.data hr
        rw [happ] at this
        exact hc (List.cons.inj this).1
      · rintro (h | ⟨h, -⟩)
        · have := congrArg String.data h
          rw [happ] at this
          exact absurd (List.cons.inj this).1 hc
        · exact h

/-- The name tested for `/web-1` is `web-1`; only one slash is removed, and a name
without a leading slash is tested as it is. -/
theorem trimSlash_examples :
    trimSlash "/web-1" = "web-1" ∧ trimSlash "//web-1" = "/web-1" ∧
    trimSlash "web-1" = "web-1" ∧ trimSlash "web/1" = "web/1" ∧ trimSlash "" = "" := by
  decide

/-- The containers `SignalContainers` signals are those with a name that matches
once one leading slash, if present, is removed. -/
theorem specHasMatchingName_iff (a : App) (c : APIContainers) :
    specHasMatchingName a c = true ↔
      ∃ name ∈ c.Names, ∃ n : String,
        (name = "/" ++ n ∨ (n = name ∧ ∀ rest : String, name ≠ "/" ++ rest)) ∧
        a.Matcher n = true := by
  unfold specHasMatchingName
  rw [List.any_eq_true]
  constructor
  · rintro ⟨name, hmem, hm⟩
    exact ⟨name, hmem, trimSlash name, (trimSlash_iff name _).mp rfl, hm⟩
  · rintro ⟨name, hmem, n, hn, hm⟩
    have := (trimSlash_iff name n).mpr hn
    subst this
    exact ⟨name, hmem, hm⟩

/-- A container with two matching names is signalled once. -/
theorem signalLoop_two_matching_names :
    signalLoop exampleApp [⟨"c9", ["/web-9", "web-9-old", "/cache"]⟩] [] =
      (none, [.killContainer ⟨"c9", .SIGHUP⟩]) := by
  decide

/-- Claim C3: when listing succeeds and every kill call on a matching container
succeeds, `SignalContainers` returns no error and sends SIGHUP to exactly the listed
containers that have a name which matches after one leading slash, if present, is
removed (the name is a slash followed by the matching text, or it has no leading
slash and matches itself), in the order listed and once each, however many of their
names match; it signals no other container and changes no file. -/
theorem C3_signal_exactly_matching (a : App) (w : World) (containers : List APIContainers)
    (hlist : a.Docker.ListContainers = .ok containers)
    (hkill : ∀ c ∈ containers, specHasMatchingName a c = true →
      a.Docker.KillContainer { ID := c.ID, Signal := .SIGHUP } = none) :
    (a.SignalContainers w).1 = none ∧
    (∃ signalled : List APIContainers,
      (a.SignalContainers w).2.docker =
        w.docker ++ .listContainers ::
          signalled.map (fun c => .killContainer { ID := c.ID, Signal := .SIGHUP }) ∧
      signalled = containers.filter (specHasMatchingName a) ∧
      signalled.Sublist containers ∧
      ∀ c ∈ containers, c ∈ signalled ↔
        ∃ name ∈ c.Names, ∃ n : String,
          (name = "/" ++ n ∨ (n = name ∧ ∀ rest : String, name ≠ "/" ++ rest)) ∧
          a.Matcher n = true) ∧
    (a.SignalContainers w).2.fs = w.fs := by
  have h := signalLoop_all_ok a containers (w.docker ++ [.listContainers]) hkill
  have e : a.SignalContainers w = (none, { w with docker :=
      (w.docker ++ [.listContainers]) ++
        (containers.filter (specHasMatchingName a)).map hupCall }) := by
    unfold App.SignalContainers
    simp only [hlist, h]
  rw [e]
  refine ⟨rfl, ⟨containers.filter (specHasMatchingName a), ?_, rfl, List.filter_sublist _,
    fun c hc => ?_⟩, rfl⟩
  · simp only [List.append_assoc, List.singleton_append]
    rfl
  · rw [List.mem_filter, ← specHasMatchingName_iff]
    exact ⟨fun h => h.2, fun h => ⟨hc, h⟩⟩

/-- Claim C3, witness: with containers named /web-1, /web-2 and /cache-1 and a
matcher for the pattern ^web-, which matches a name only from its first character,
the two web containers are signalled once each and the cache container is not. -/
theorem C3_witness :
    (exampleApp.SignalContainers emptyWorld).1 = none ∧
    (exampleApp.SignalContainers emptyWorld).2.docker =
      [.listContainers, .killContainer ⟨"c1", .SIGHUP⟩, .killContainer ⟨"c2", .SIGHUP⟩] ∧
    exampleMatcher "/web-1" = false ∧ exampleMatcher "web-1" = true :=
  have h := C3_signal_exactly_matching exampleApp emptyWorld exampleContainers rfl
    (fun _ _ _ => rfl)
  ⟨h.1, h.2.1.elim fun _ hs => (hs.2.1 ▸ hs.1).trans (by decide), by decide, by decide⟩

/-- Claim C10: when the kill call fails for a matching container, and `k` is the
position of the first such container, `SignalContainers` returns that error and
has attempted a kill on exactly the matching containers at positions up to and
including `k`, in order; the earlier signals stay sent and no container after
position `k` is signalled. -/
theorem C10_stops_at_first_failure (a : App) (w : World) (containers : List APIContainers)
    (k : Nat) (c : APIContainers) (err : String)
    (hlist : a.Docker.ListContainers = .ok containers)
    (hk : containers[k]? = some c)
    (hmatch : specHasMatchingName a c = true)
    (hfail : a.Docker.KillContainer { ID := c.ID, Signal := .SIGHUP } = some err)
    (hfirst : ∀ x ∈ containers.take k, specHasMatchingName a x = true →
      a.Docker.KillContainer { ID := x.ID, Signal := .SIGHUP } = none) :
    (a.SignalContainers w).1 = some err ∧
    (a.SignalContainers w).2.docker =
      w.docker ++ .listContainers ::
        ((containers.take (k + 1)).filter (specHasMatchingName a)).map hupCall ∧
    (a.SignalContainers w).2.fs = w.fs := by
  have hlt : k < containers.length := by
    rcases Nat.lt_or_ge k containers.length with h | h
    · exact h
    · rw [List.getElem?_eq_none h] at hk; cases hk
  have hget : containers[k] = c := by
    rw [List.getElem?_eq_getElem hlt] at hk
    exact Option.some.inj hk
  have hsplit : containers = containers.take k ++ c :: containers.drop (k + 1) := by
    rw [← hget, ← List.drop_eq_getElem_cons hlt, List.take_append_drop]
  have htake : containers.take (k + 1) = containers.take k ++ [c] := by
    rw [List.take_succ, hk]; rfl
  have h := signalLoop_first_fail a c (containers.drop (k + 1)) err hmatch hfail
    (containers.take k) (w.docker ++ [.listContainers]) hfirst
  rw [← hsplit, ← htake] at h
  have e : a.SignalContainers w = (some err, { w with docker :=
      (w.docker ++ [.listContainers]) ++
        ((containers.take (k + 1)).filter (specHasMatchingName a)).map hupCall }) := by
    unfold App.SignalContainers
    simp only [hlist, h]
  rw [e]
  refine ⟨rfl, ?_, rfl⟩
  simp only [List.append_assoc, List.singleton_append]

/-- Claim C10, witness: the three containers are listed and the kill call on c2
fails; c1 and c2 have been tried, and the error is the one of c2. -/
theorem C10_witness :
    (exampleAppFailing.SignalContainers emptyWorld).1 = some "No such container: c2" ∧
    (exampleAppFailing.SignalContainers emptyWorld).2.docker =
      [.listContainers, .killContainer ⟨"c1", .SIGHUP⟩, .killContainer ⟨"c2", .SIGHUP⟩] :=
  ⟨(C10_stops_at_first_failure exampleAppFailing emptyWorld exampleContainers 1
      ⟨"c2", ["/web-2"]⟩ "No such container: c2" rfl rfl (by decide) (by decide)
      (by decide)).1,
   (C10_stops_at_first_failure exampleAppFailing emptyWorld exampleContainers 1
      ⟨"c2", ["/web-2"]⟩ "No such container: c2" rfl rfl (by decide) (by decide)
      (by decide)).2.1.trans (by decide)⟩

/-! ## The file operations -/

theorem InitChangeRequest_keeps (L : Lib) (c c2 : ChangeRequest)
    (h : InitChangeRequest L c = .ok c2) :
    c2.Identifier = c.Identifier ∧ c2.URL = c.URL := by
  unfold InitChangeRequest at h
  split at h
  · split at h
    · cases h
    · cases h; exact ⟨rfl, rfl⟩
  · cases h; exact ⟨rfl, rfl⟩

theorem osStat_eq_none_iff (fs : FS) (p : String) : osStat fs p = none ↔ fileExists fs p := by
  unfold osStat fileExists
  cases fs p <;> simp [Node.isFile]

theorem osIsNotExist_osStat_iff (fs : FS) (p : String) :
    osIsNotExist (osStat fs p) = true ↔ fileMissing fs p := by
  unfold osStat fileMissing
  cases fs p <;> simp [osIsNotExist]

theorem fileExists_of_fileData (fs : FS) (p : String) (d : Bytes) (h : fileData fs p = some d) :
    fileExists fs p := by
  unfold fileData at h
  unfold fileExists
  cases hn : fs p <;> simp [hn, Node.isFile] at h ⊢

/-- A successful `ioutil.WriteFile` leaves the data in the file and no other file changed. -/
theorem ioutilWriteFile_ok (fs fs2 : FS) (p : String) (d : Bytes)
    (h : ioutilWriteFile fs p d = .ok fs2) :
    fileData fs2 p = some d ∧ (∀ q, q ≠ p → fs2 q = fs q) ∧ fs p ≠ .blocked := by
  unfold ioutilWriteFile at h
  split at h
  · cases h
    rename_i hn
    exact ⟨by simp [fileData], fun q hq => by simp [hq], by simp [hn]⟩
  · cases h
    rename_i hn
    exact ⟨by simp [fileData], fun q hq => by simp [hq], by simp [hn]⟩
  · cases h
  · cases h

/-- The outcome of the common tail of `Add` and `Update` when it answers 200: the
record was marshalled and both files hold what was written. -/
theorem writeAndSignal_success (L : Lib) (a : App) (w : World) (c : ChangeRequest) (cfg : Bytes)
    (jp cp : String) (hne : jp ≠ cp)
    (h : (a.writeAndSignal L w c cfg jp cp).1.status = 200) :
    ∃ json, L.jsonMarshal c = .ok json ∧
      fileData (a.writeAndSignal L w c cfg jp cp).2.fs jp = some json ∧
      fileData (a.writeAndSignal L w c cfg jp cp).2.fs cp = some cfg ∧
      (∀ q, q ≠ jp → q ≠ cp → (a.writeAndSignal L w c cfg jp cp).2.fs q = w.fs q) := by
  unfold App.writeAndSignal at h ⊢
  cases hm : L.jsonMarshal c with
  | error e => simp [hm, httpError] at h
  | ok json =>
    cases h1 : ioutilWriteFile w.fs jp json with
    | error e => simp [hm, h1, httpError] at h
    | ok fs1 =>
      cases h2 : ioutilWriteFile fs1 cp cfg with
      | error e => simp [hm, h1, h2, httpError] at h
      | ok fs2 =>
        obtain ⟨d1, o1, _⟩ := ioutilWriteFile_ok _ _ _ _ h1
        obtain ⟨d2, o2, _⟩ := ioutilWriteFile_ok _ _ _ _ h2
        have hfs := SignalContainers_fs a { w with fs := fs2 }
        refine ⟨json, rfl, ?_⟩
        simp only [hm, h1, h2]
        cases hs : a.SignalContainers { w with fs := fs2 } with
        | mk e w2 =>
          rw [hs] at hfs
          simp only at hfs
          cases e with
          | some err => simp [hm, h1, h2, hs, httpError] at h
          | none =>
            simp only [hfs]
            refine ⟨?_, d2, ?_⟩
            · unfold fileData at d1 ⊢
              rw [o2 jp hne, ]
              exact d1
            · intro q hq1 hq2
              rw [o2 q hq2, o1 q hq1]

/-! ## The handler `Delete` -/

/-- The handler `Delete` when neither existence check is blocked and no removal is
refused: with a half to remove it removes both paths and signals, with none it does
nothing. -/
theorem Delete_general (a : App) (w : World) (r : Request)
    (hj : w.fs (a.jsonpath r.identifier) ≠ .blocked)
    (hc : w.fs (a.configpath r.identifier) ≠ .blocked)
    (hjr : ∀ d wr op rd, w.fs (a.jsonpath r.identifier) ≠ .file d wr false op rd)
    (hcr : ∀ d wr op rd, w.fs (a.configpath r.identifier) ≠ .file d wr false op rd) :
    (fileExists w.fs (a.jsonpath r.identifier) ∨ fileExists w.fs (a.configpath r.identifier) →
      a.Delete w r =
        match a.SignalContainers { w with
          fs := removeBoth w.fs (a.jsonpath r.identifier) (a.configpath r.identifier) } with
        | (some err, w2) => (httpError (errorsWrap err "error HUPing container(s)") 500, w2)
        | (none, w2) => (⟨200, ""⟩, w2)) ∧
    (¬ (fileExists w.fs (a.jsonpath r.identifier) ∨
        fileExists w.fs (a.configpath r.identifier)) →
      a.Delete w r = (⟨200, ""⟩, w)) := by
  have hne := jsonpath_ne_configpath a r.identifier
  have hne2 : a.configpath r.identifier ≠ a.jsonpath r.identifier := fun h => hne h.symm
  cases h1 : w.fs (a.jsonpath r.identifier) with
  | blocked => exact absurd h1 hj
  | absent =>
    cases h2 : w.fs (a.configpath r.identifier) with
    | blocked => exact absurd h2 hc
    | absent =>
      refine ⟨fun h => ?_, fun _ => ?_⟩
      · simp [fileExists, h1, h2, Node.isFile] at h
      · simp [App.Delete, osStat, osIsNotExist, h1, h2]
    | file d wr rm op rd =>
      cases rm with
      | false => exact absurd h2 (hcr d wr op rd)
      | true =>
        refine ⟨fun _ => ?_, fun h => ?_⟩
        · have hfs : (fun p => if p = a.configpath r.identifier then Node.absent else w.fs p) =
              removeBoth w.fs (a.jsonpath r.identifier) (a.configpath r.identifier) := by
            funext p
            unfold removeBoth
            by_cases hp : p = a.jsonpath r.identifier
            · simp [hp, h1]
            · simp [hp]
          simp [App.Delete, osStat, osIsNotExist, osRemove, h1, h2, hfs]
        · simp [fileExists, h1, h2, Node.isFile] at h
  | file d wr rm op rd =>
    cases rm with
    | false => exact absurd h1 (hjr d wr op rd)
    | true =>
      cases h2 : w.fs (a.configpath r.identifier) with
      | blocked => exact absurd h2 hc
      | absent =>
        refine ⟨fun _ => ?_, fun h => ?_⟩
        · have hfs : (fun p => if p = a.jsonpath r.identifier then Node.absent else w.fs p) =
              removeBoth w.fs (a.jsonpath r.identifier) (a.configpath r.identifier) := by
            funext p
            unfold removeBoth
            by_cases hp : p = a.configpath r.identifier
            · simp [hp, h2]
            · simp [hp]
          simp [App.Delete, osStat, osIsNotExist, osRemove, h1, h2, hfs, hne2]
        · simp [fileExists, h1, h2, Node.isFile] at h
      | file d2 wr2 rm2 op2 rd2 =>
        cases rm2 with
        | false => exact absurd h2 (hcr d2 wr2 op2 rd2)
        | true =>
          refine ⟨fun _ => ?_, fun h => ?_⟩
          · have hfs : (fun p => if p = a.configpath r.identifier then Node.absent
                else if p = a.jsonpath r.identifier then Node.absent else w.fs p) =
                removeBoth w.fs (a.jsonpath r.identifier) (a.configpath r.identifier) := by
              funext p
              unfold removeBoth
              by_cases hp : p = a.configpath r.identifier
              · simp [hp]
              · simp [hp]
            simp [App.Delete, osStat, osIsNotExist, osRemove, h1, h2, hfs, hne2]
          · simp [fileExists, h1, h2, Node.isFile] at h

theorem removeBoth_left (fs : FS) (jp cp : String) : removeBoth fs jp cp jp = .absent := by
  simp [removeBoth]

theorem removeBoth_right (fs : FS) (jp cp : String) : removeBoth fs jp cp cp = .absent := by
  simp [removeBoth]

/-- After `Delete` answers 200 neither half of the identifier exists. -/
theorem Delete_success_absent (a : App) (w : World) (r : Request)
    (h : (a.Delete w r).1.status = 200) :
    (a.Delete w r).2.fs (a.jsonpath r.identifier) = .absent ∧
    (a.Delete w r).2.fs (a.configpath r.identifier) = .absent := by
  have hne := jsonpath_ne_configpath a r.identifier
  have hne2 : a.configpath r.identifier ≠ a.jsonpath r.identifier := fun h => hne h.symm
  by_cases hj : w.fs (a.jsonpath r.identifier) = .blocked
  · simp [App.Delete, osStat, osIsNotExist, hj, httpError] at h
  by_cases hjr : ∃ d wr op rd, w.fs (a.jsonpath r.identifier) = .file d wr false op rd
  · obtain ⟨d, wr, op, rd, hjr⟩ := hjr
    by_cases hc : w.fs (a.configpath r.identifier) = .blocked
    · simp [App.Delete, osStat, osIsNotExist, hjr, hc, httpError] at h
    · cases hc2 : w.fs (a.configpath r.identifier) <;>
        simp [App.Delete, osStat, osIsNotExist, osRemove, hjr, hc2, httpError] at h hc
  by_cases hc : w.fs (a.configpath r.identifier) = .blocked
  · cases hj2 : w.fs (a.jsonpath r.identifier) <;>
      simp [App.Delete, osStat, osIsNotExist, hj2, hc, httpError] at h hj
  by_cases hcr : ∃ d wr op rd, w.fs (a.configpath r.identifier) = .file d wr false op rd
  · obtain ⟨d, wr, op, rd, hcr⟩ := hcr
    cases hj2 : w.fs (a.jsonpath r.identifier) with
    | blocked => exact absurd hj2 hj
    | absent =>
      simp [App.Delete, osStat, osIsNotExist, osRemove, hj2, hcr, httpError] at h
    | file d2 wr2 rm2 op2 rd2 =>
      cases rm2 with
      | false => exact absurd ⟨d2, wr2, op2, rd2, hj2⟩ hjr
      | true =>
        simp [App.Delete, osStat, osIsNotExist, osRemove, hj2, hcr, hne2, httpError] at h
  have g := Delete_general a w r hj hc (fun d wr op rd e => hjr ⟨d, wr, op, rd, e⟩) (fun d wr op rd e => hcr ⟨d, wr, op, rd, e⟩)
  by_cases hex : fileExists w.fs (a.jsonpath r.identifier) ∨
      fileExists w.fs (a.configpath r.identifier)
  · have hfs := SignalContainers_fs a { w with
      fs := removeBoth w.fs (a.jsonpath r.identifier) (a.configpath r.identifier) }
    rw [g.1 hex]
    cases hs : a.SignalContainers { w with
      fs := removeBoth w.fs (a.jsonpath r.identifier) (a.configpath r.identifier) } with
    | mk e w2 =>
      rw [hs] at hfs
      simp only at hfs
      cases e <;> simp only [hfs, removeBoth_left, removeBoth_right, and_self]
  · rw [g.2 hex]
    simp only [fileExists, not_or] at hex
    constructor
    · cases hj2 : w.fs (a.jsonpath r.identifier) with
      | blocked => exact absurd hj2 hj
      | absent => rfl
      | file d wr rm op rd => simp [hj2, Node.isFile] at hex
    · cases hc2 : w.fs (a.configpath r.identifier) with
      | blocked => exact absurd hc2 hc
      | absent => rfl
      | file d wr rm op rd => simp [hc2, Node.isFile] at hex

/-! ## The claims about the handlers -/

/-- Claim C1: when the body parses to a record of identifier `id` whose
normalization and rendering succeed, and the record file or the configuration file
of `id` already exists, `Add` answers 400 and leaves the world as it was: no file is
written and no call is made to Docker. -/
theorem C1_add_existing_is_conflict (L : Lib) (a : App) (w : World) (r : Request)
    (parsed change : ChangeRequest) (cfg : Bytes) (id : String)
    (hp : parsebody L r = .ok parsed) (hid : parsed.Identifier = id)
    (hi : InitChangeRequest L parsed = .ok change) (hg : a.GenerateConfig change = .ok cfg)
    (hex : fileExists w.fs (a.jsonpath id) ∨ fileExists w.fs (a.configpath id)) :
    (a.Add L w r).1.status = 400 ∧ (a.Add L w r).2 = w ∧
      (a.Add L w r).2.fs = w.fs ∧ (a.Add L w r).2.docker = w.docker := by
  have hcid : change.Identifier = id := (InitChangeRequest_keeps L parsed change hi).1.trans hid
  have key : (a.Add L w r).1.status = 400 ∧ (a.Add L w r).2 = w := by
    unfold App.Add
    simp only [hp, hi, hg, hcid]
    by_cases h1 : osStat w.fs (a.jsonpath id) = none
    · simp [h1, httpError]
    · have h2 : osStat w.fs (a.configpath id) = none := by
        rcases hex with h | h
        · exact absurd ((osStat_eq_none_iff _ _).mpr h) h1
        · exact (osStat_eq_none_iff _ _).mpr h
      simp [h1, h2, httpError]
  exact ⟨key.1, key.2, by rw [key.2], by rw [key.2]⟩

/-- Claim C1, witness: creating `app1` a second time answers 400 and changes nothing. -/
theorem C1_witness :
    (exampleApp.Add exampleLib exampleWorld exampleAddRequest).1.status = 400 ∧
    (exampleApp.Add exampleLib exampleWorld exampleAddRequest).2 = exampleWorld :=
  have h := C1_add_existing_is_conflict exampleLib exampleApp exampleWorld exampleAddRequest
    ⟨"app1", "http://svc.local:9090", "", ""⟩
    ⟨"app1", "http://svc.local:9090", "svc.local", "9090"⟩
    "proxy_pass http://svc.local:9090;" "app1" rfl rfl rfl rfl
    (Or.inl (by decide))
  ⟨h.1, h.2.1⟩

/-- The outcome of `Add` when it answers 200: normalization, rendering and
marshalling succeeded, neither half existed before, and both files hold what was
written. -/
theorem Add_success (L : Lib) (a : App) (w : World) (r : Request) (parsed : ChangeRequest)
    (hp : parsebody L r = .ok parsed) (h : (a.Add L w r).1.status = 200) :
    ∃ change cfg json, InitChangeRequest L parsed = .ok change ∧
      a.GenerateConfig change = .ok cfg ∧ L.jsonMarshal change = .ok json ∧
      fileData (a.Add L w r).2.fs (a.jsonpath parsed.Identifier) = some json ∧
      fileData (a.Add L w r).2.fs (a.configpath parsed.Identifier) = some cfg ∧
      ¬ fileExists w.fs (a.jsonpath parsed.Identifier) ∧
      ¬ fileExists w.fs (a.configpath parsed.Identifier) := by
  unfold App.Add at h ⊢
  simp only [hp] at h ⊢
  cases hi : InitChangeRequest L parsed with
  | error e => simp [hi, httpError] at h
  | ok change =>
    have hcid : change.Identifier = parsed.Identifier := (InitChangeRequest_keeps L _ _ hi).1
    simp only [hi, hcid] at h ⊢
    cases hg : a.GenerateConfig change with
    | error e => simp [hg, httpError] at h
    | ok cfg =>
      simp only [hg] at h ⊢
      by_cases h1 : osStat w.fs (a.jsonpath parsed.Identifier) = none
      · simp [h1, httpError] at h
      · by_cases h2 : osStat w.fs (a.configpath parsed.Identifier) = none
        · simp [h1, h2, httpError] at h
        · simp only [h1, h2, if_false] at h ⊢
          obtain ⟨json, hm, hj, hc, _⟩ := writeAndSignal_success L a w change cfg _ _
            (jsonpath_ne_configpath a parsed.Identifier) h
          exact ⟨change, cfg, json, rfl, hg, hm, hj, hc,
            fun hx => h1 ((osStat_eq_none_iff _ _).mpr hx),
            fun hx => h2 ((osStat_eq_none_iff _ _).mpr hx)⟩

/-- The outcome of `Update` when it answers 200: normalization, rendering and
marshalling succeeded, neither half was missing before, and both files hold what
was written. -/
theorem Update_success (L : Lib) (a : App) (w : World) (r : Request) (parsed : ChangeRequest)
    (hp : parsebody L r = .ok parsed) (h : (a.Update L w r).1.status = 200) :
    ∃ change cfg json, InitChangeRequest L parsed = .ok change ∧
      a.GenerateConfig change = .ok cfg ∧ L.jsonMarshal change = .ok json ∧
      fileData (a.Update L w r).2.fs (a.jsonpath r.identifier) = some json ∧
      fileData (a.Update L w r).2.fs (a.configpath r.identifier) = some cfg ∧
      ¬ fileMissing w.fs (a.jsonpath r.identifier) ∧
      ¬ fileMissing w.fs (a.configpath r.identifier) := by
  unfold App.Update at h ⊢
  simp only [hp] at h ⊢
  cases hi : InitChangeRequest L parsed with
  | error e => simp [hi, httpError] at h
  | ok change =>
    simp only [hi] at h ⊢
    cases hg : a.GenerateConfig change with
    | error e => simp [hg, httpError] at h
    | ok cfg =>
      simp only [hg] at h ⊢
      by_cases h1 : osIsNotExist (osStat w.fs (a.jsonpath r.identifier)) = true
      · simp [h1, httpError] at h
      · by_cases h2 : osIsNotExist (osStat w.fs (a.configpath r.identifier)) = true
        · simp [h1, h2, httpError] at h
        · simp only [h1, h2, if_false] at h ⊢
          obtain ⟨json, hm, hj, hc, _⟩ := writeAndSignal_success L a w change cfg _ _
            (jsonpath_ne_configpath a r.identifier) h
          exact ⟨change, cfg, json, rfl, hg, hm, hj, hc,
            fun hx => h1 ((osIsNotExist_osStat_iff _ _).mpr hx),
            fun hx => h2 ((osIsNotExist_osStat_iff _ _).mpr hx)⟩

/-- Claim C2: whatever the files were before, half-written entries included, after
`Add`, `Update` or `Delete` answers 200 the record file and the configuration file
of the identifier both exist or both do not: both exist after `Add` (for the
identifier of the body) and after `Update`, and both are absent after `Delete`. -/
theorem C2_both_halves_or_neither (L : Lib) (a : App) (w : World) (r : Request) :
    (∀ parsed, parsebody L r = .ok parsed → (a.Add L w r).1.status = 200 →
      fileExists (a.Add L w r).2.fs (a.jsonpath parsed.Identifier) ∧
      fileExists (a.Add L w r).2.fs (a.configpath parsed.Identifier)) ∧
    ((a.Update L w r).1.status = 200 →
      fileExists (a.Update L w r).2.fs (a.jsonpath r.identifier) ∧
      fileExists (a.Update L w r).2.fs (a.configpath r.identifier)) ∧
    ((a.Delete w r).1.status = 200 →
      fileMissing (a.Delete w r).2.fs (a.jsonpath r.identifier) ∧
      fileMissing (a.Delete w r).2.fs (a.configpath r.identifier) ∧
      ¬ fileExists (a.Delete w r).2.fs (a.jsonpath r.identifier) ∧
      ¬ fileExists (a.Delete w r).2.fs (a.configpath r.identifier)) := by
  refine ⟨fun parsed hp h => ?_, fun h => ?_, fun h => ?_⟩
  · obtain ⟨_, _, _, _, _, _, hj, hc, _, _⟩ := Add_success L a w r parsed hp h
    exact ⟨fileExists_of_fileData _ _ _ hj, fileExists_of_fileData _ _ _ hc⟩
  · cases hp : parsebody L r with
    | error e =>
      unfold App.Update at h
      simp [hp, httpError] at h
    | ok parsed =>
      obtain ⟨_, _, _, _, _, _, hj, hc, _, _⟩ := Update_success L a w r parsed hp h
      exact ⟨fileExists_of_fileData _ _ _ hj, fileExists_of_fileData _ _ _ hc⟩
  · obtain ⟨hj, hc⟩ := Delete_success_absent a w r h
    refine ⟨hj, hc, ?_, ?_⟩
    · unfold fileExists; rw [hj]; simp [Node.isFile]
    · unfold fileExists; rw [hc]; simp [Node.isFile]

/-- Claim C2, witness: `app1` is created in the empty world, updated, and deleted;
both files exist after the first two and none after the third. -/
theorem C2_witness :
    (fileExists exampleWorld.fs "/etc/nginx/conf.d/app1.json" ∧
      fileExists exampleWorld.fs "/etc/nginx/conf.d/app1.conf") ∧
    (fileExists (exampleApp.Update exampleLib exampleWorld exampleUpdateRequest).2.fs
        "/etc/nginx/conf.d/app1.json" ∧
      fileExists (exampleApp.Update exampleLib exampleWorld exampleUpdateRequest).2.fs
        "/etc/nginx/conf.d/app1.conf") ∧
    (fileMissing (exampleApp.Delete exampleWorld exampleGetRequest).2.fs
        "/etc/nginx/conf.d/app1.json" ∧
      fileMissing (exampleApp.Delete exampleWorld exampleGetRequest).2.fs
        "/etc/nginx/conf.d/app1.conf") :=
  ⟨(C2_both_halves_or_neither exampleLib exampleApp emptyWorld exampleAddRequest).1
      ⟨"app1", "http://svc.local:9090", "", ""⟩ rfl (by decide),
   (C2_both_halves_or_neither exampleLib exampleApp exampleWorld exampleUpdateRequest).2.1
      (by decide),
   ⟨((C2_both_halves_or_neither exampleLib exampleApp exampleWorld exampleGetRequest).2.2
      (by decide)).1,
    ((C2_both_halves_or_neither exampleLib exampleApp exampleWorld exampleGetRequest).2.2
      (by decide)).2.1⟩⟩

/-- Claim C4: when the two existence checks raise no I/O error and no removal is
refused, `Delete` removes whichever of the two files exist and leaves every other
file unchanged, and it calls `SignalContainers` if and only if one of the two files
existed; with neither file it answers 200 and changes nothing. -/
theorem C4_delete_removes_and_signals (a : App) (w : World) (r : Request)
    (hj : osStat w.fs (a.jsonpath r.identifier) = none ∨
      osIsNotExist (osStat w.fs (a.jsonpath r.identifier)) = true)
    (hc : osStat w.fs (a.configpath r.identifier) = none ∨
      osIsNotExist (osStat w.fs (a.configpath r.identifier)) = true)
    (hjr : fileExists w.fs (a.jsonpath r.identifier) →
      (osRemove w.fs (a.jsonpath r.identifier)).toBool = true)
    (hcr : fileExists w.fs (a.configpath r.identifier) →
      (osRemove w.fs (a.configpath r.identifier)).toBool = true) :
    (a.Delete w r).2.fs = removeBoth w.fs (a.jsonpath r.identifier) (a.configpath r.identifier) ∧
    ((∃ tail, (a.Delete w r).2.docker = w.docker ++ .listContainers :: tail) ↔
      (fileExists w.fs (a.jsonpath r.identifier) ∨
        fileExists w.fs (a.configpath r.identifier))) ∧
    ((fileExists w.fs (a.jsonpath r.identifier) ∨ fileExists w.fs (a.configpath r.identifier)) →
      (a.Delete w r).2 = (a.SignalContainers { w with
        fs := removeBoth w.fs (a.jsonpath r.identifier) (a.configpath r.identifier) }).2) ∧
    (¬ (fileExists w.fs (a.jsonpath r.identifier) ∨
        fileExists w.fs (a.configpath r.identifier)) →
      a.Delete w r = (⟨200, ""⟩, w)) := by
  have bj : w.fs (a.jsonpath r.identifier) ≠ .blocked := by
    intro hb; simp [osStat, osIsNotExist, hb] at hj
  have bc : w.fs (a.configpath r.identifier) ≠ .blocked := by
    intro hb; simp [osStat, osIsNotExist, hb] at hc
  have rj : ∀ d wr op rd, w.fs (a.jsonpath r.identifier) ≠ .file d wr false op rd := by
    intro d wr op rd hf
    have := hjr (by simp [fileExists, hf, Node.isFile])
    simp [osRemove, hf, Except.toBool] at this
  have rc : ∀ d wr op rd, w.fs (a.configpath r.identifier) ≠ .file d wr false op rd := by
    intro d wr op rd hf
    have := hcr (by simp [fileExists, hf, Node.isFile])
    simp [osRemove, hf, Except.toBool] at this
  obtain ⟨g1, g2⟩ := Delete_general a w r bj bc rj rc
  have hsig : (fileExists w.fs (a.jsonpath r.identifier) ∨
      fileExists w.fs (a.configpath r.identifier)) →
      (a.Delete w r).2 = (a.SignalContainers { w with
        fs := removeBoth w.fs (a.jsonpath r.identifier) (a.configpath r.identifier) }).2 := by
    intro hex
    rw [g1 hex]
    cases hs : a.SignalContainers { w with
        fs := removeBoth w.fs (a.jsonpath r.identifier) (a.configpath r.identifier) } with
    | mk e w2 => cases e <;> rfl
  refine ⟨?_, ?_, hsig, g2⟩
  · by_cases hex : fileExists w.fs (a.jsonpath r.identifier) ∨
        fileExists w.fs (a.configpath r.identifier)
    · rw [hsig hex, SignalContainers_fs]
    · rw [g2 hex]
      simp only [fileExists, not_or] at hex
      funext p
      unfold removeBoth
      by_cases hp : p = a.jsonpath r.identifier
      · subst hp
        cases hn : w.fs (a.jsonpath r.identifier) with
        | blocked => exact absurd hn bj
        | absent => simp
        | file d wr rm op rd => simp [hn, Node.isFile] at hex
      · by_cases hq : p = a.configpath r.identifier
        · subst hq
          cases hn : w.fs (a.configpath r.identifier) with
          | blocked => exact absurd hn bc
          | absent => simp
          | file d wr rm op rd => simp [hn, Node.isFile] at hex
        · simp [hp, hq]
  · constructor
    · rintro ⟨tail, ht⟩
      by_contra hex
      rw [g2 hex] at ht
      have := congrArg List.length ht
      simp at this
    · intro hex
      rw [hsig hex]
      exact SignalContainers_log a _

/-- Claim C4, witness: deleting `app1` after it was created removes both files and
lists the containers again; deleting it in the empty world does nothing. -/
theorem C4_witness :
    (exampleApp.Delete exampleWorld exampleGetRequest).2.fs =
      removeBoth exampleWorld.fs "/etc/nginx/conf.d/app1.json" "/etc/nginx/conf.d/app1.conf" ∧
    exampleApp.Delete emptyWorld exampleGetRequest = (⟨200, ""⟩, emptyWorld) :=
  ⟨(C4_delete_removes_and_signals exampleApp exampleWorld exampleGetRequest
      (Or.inl (by decide)) (Or.inl (by decide)) (fun _ => by decide) (fun _ => by decide)).1,
   (C4_delete_removes_and_signals exampleApp emptyWorld exampleGetRequest
      (Or.inr (by decide)) (Or.inr (by decide))
      (fun h => absurd h (by decide))
      (fun h => absurd h (by decide))).2.2.2
      (by decide)⟩

/-- Claim C5: when the body parses to a record whose normalization and rendering
succeed, and the record file or the configuration file of the identifier does not
exist, `Update` answers 404 and leaves the world as it was: no file is written, a
missing half is not created, and no call is made to Docker.  So `Update` changes
the world only when neither half is missing, and it answers 200 only when both
halves existed. -/
theorem C5_update_missing_is_not_found (L : Lib) (a : App) (w : World) (r : Request)
    (parsed change : ChangeRequest) (cfg : Bytes)
    (hp : parsebody L r = .ok parsed)
    (hi : InitChangeRequest L parsed = .ok change) (hg : a.GenerateConfig change = .ok cfg) :
    ((fileMissing w.fs (a.jsonpath r.identifier) ∨ fileMissing w.fs (a.configpath r.identifier)) →
      (a.Update L w r).1.status = 404 ∧ (a.Update L w r).2 = w ∧
        (a.Update L w r).2.fs = w.fs ∧ (a.Update L w r).2.docker = w.docker) ∧
    ((a.Update L w r).2 ≠ w →
      ¬ fileMissing w.fs (a.jsonpath r.identifier) ∧
      ¬ fileMissing w.fs (a.configpath r.identifier)) ∧
    ((a.Update L w r).1.status = 200 →
      fileExists w.fs (a.jsonpath r.identifier) ∧
      fileExists w.fs (a.configpath r.identifier)) := by
  have key : (fileMissing w.fs (a.jsonpath r.identifier) ∨
      fileMissing w.fs (a.configpath r.identifier)) →
      (a.Update L w r).1.status = 404 ∧ (a.Update L w r).2 = w := by
    intro hmiss
    unfold App.Update
    simp only [hp, hi, hg]
    by_cases h1 : osIsNotExist (osStat w.fs (a.jsonpath r.identifier)) = true
    · simp [h1, httpError]
    · have h2 : osIsNotExist (osStat w.fs (a.configpath r.identifier)) = true := by
        rcases hmiss with h | h
        · exact absurd ((osIsNotExist_osStat_iff _ _).mpr h) h1
        · exact (osIsNotExist_osStat_iff _ _).mpr h
      simp [h1, h2, httpError]
  refine ⟨fun hmiss => ?_, fun hch => ?_, fun hok => ?_⟩
  · obtain ⟨k1, k2⟩ := key hmiss
    exact ⟨k1, k2, by rw [k2], by rw [k2]⟩
  · constructor
    · intro hm; exact hch (key (Or.inl hm)).2
    · intro hm; exact hch (key (Or.inr hm)).2
  · have hj : ¬ fileMissing w.fs (a.jsonpath r.identifier) := by
      intro hm; have := (key (Or.inl hm)).1; omega
    have hc : ¬ fileMissing w.fs (a.configpath r.identifier) := by
      intro hm; have := (key (Or.inr hm)).1; omega
    have hne := jsonpath_ne_configpath a r.identifier
    unfold App.Update at hok
    simp only [hp, hi, hg] at hok
    have h1 : ¬ osIsNotExist (osStat w.fs (a.jsonpath r.identifier)) = true :=
      fun h => hj ((osIsNotExist_osStat_iff _ _).mp h)
    have h2 : ¬ osIsNotExist (osStat w.fs (a.configpath r.identifier)) = true :=
      fun h => hc ((osIsNotExist_osStat_iff _ _).mp h)
    simp only [h1, h2, if_false] at hok
    unfold App.writeAndSignal at hok
    cases hm : L.jsonMarshal change with
    | error e => simp [hm, httpError] at hok
    | ok json =>
      cases hw1 : ioutilWriteFile w.fs (a.jsonpath r.identifier) json with
      | error e => simp [hm, hw1, httpError] at hok
      | ok fs1 =>
        cases hw2 : ioutilWriteFile fs1 (a.configpath r.identifier) cfg with
        | error e => simp [hm, hw1, hw2, httpError] at hok
        | ok fs2 =>
          obtain ⟨_, o1, b1⟩ := ioutilWriteFile_ok _ _ _ _ hw1
          obtain ⟨_, _, b2⟩ := ioutilWriteFile_ok _ _ _ _ hw2
          rw [o1 _ (fun h => hne h.symm)] at b2
          constructor
          · unfold fileExists fileMissing at *
            cases hn : w.fs (a.jsonpath r.identifier) with
            | absent => exact absurd hn hj
            | blocked => exact absurd hn b1
            | file d wr rm op rd => rfl
          · unfold fileExists fileMissing at *
            cases hn : w.fs (a.configpath r.identifier) with
            | absent => exact absurd hn hc
            | blocked => exact absurd hn b2
            | file d wr rm op rd => rfl

/-- Claim C5, witness: updating `app1` in the empty world answers 404 and changes nothing. -/
theorem C5_witness :
    (exampleApp.Update exampleLib emptyWorld exampleUpdateRequest).1.status = 404 ∧
    (exampleApp.Update exampleLib emptyWorld exampleUpdateRequest).2 = emptyWorld :=
  have h := (C5_update_missing_is_not_found exampleLib exampleApp emptyWorld exampleUpdateRequest
    ⟨"other", "http://svc.local:9091", "", ""⟩
    ⟨"other", "http://svc.local:9091", "svc.local", "9091"⟩
    "proxy_pass http://svc.local:9091;" rfl rfl rfl).1 (Or.inl rfl)
  ⟨h.1, h.2.1⟩

/-- Claim C6: for a change request whose URL is not empty and parses,
`InitChangeRequest` sets the host and the port to the hostname and the port of the
parsed URL and leaves the identifier and the URL unchanged; and whenever
`InitChangeRequest` succeeds, applying it again to the result succeeds and changes
nothing. -/
theorem C6_normalization_idempotent (L : Lib) (c : ChangeRequest) :
    (∀ u, c.URL ≠ "" → L.urlParse c.URL = .ok u →
      InitChangeRequest L c =
        .ok { Identifier := c.Identifier, URL := c.URL, Host := u.Hostname, Port := u.Port }) ∧
    (∀ c2, InitChangeRequest L c = .ok c2 → InitChangeRequest L c2 = .ok c2) := by
  constructor
  · intro u hne hu
    unfold InitChangeRequest
    rw [if_pos hne]
    simp only [hu]
  · intro c2 h
    have hurl : c2.URL = c.URL := (InitChangeRequest_keeps L c c2 h).2
    unfold InitChangeRequest at h ⊢
    rw [hurl]
    by_cases hne : c.URL ≠ ""
    · rw [if_pos hne] at h ⊢
      cases hu : L.urlParse c.URL with
      | error e => simp [hu] at h
      | ok u =>
        simp only [hu] at h ⊢
        cases h
        rfl
    · rw [if_neg hne]

/-- Claim C6, witness: the URL http://svc.local:9090 gives host svc.local and port
9090, and normalizing the result again gives the same record. -/
theorem C6_witness :
    InitChangeRequest exampleLib ⟨"app1", "http://svc.local:9090", "", ""⟩ =
      .ok ⟨"app1", "http://svc.local:9090", "svc.local", "9090"⟩ ∧
    InitChangeRequest exampleLib ⟨"app1", "http://svc.local:9090", "svc.local", "9090"⟩ =
      .ok ⟨"app1", "http://svc.local:9090", "svc.local", "9090"⟩ :=
  ⟨(C6_normalization_idempotent exampleLib ⟨"app1", "http://svc.local:9090", "", ""⟩).1
      ⟨"svc.local", "9090"⟩ (by decide) rfl,
   (C6_normalization_idempotent exampleLib ⟨"app1", "http://svc.local:9090", "", ""⟩).2
      ⟨"app1", "http://svc.local:9090", "svc.local", "9090"⟩ rfl⟩

/-! ## The handler `Get` -/

/-- The handler `Get` never changes the world. -/
theorem Get_world (a : App) (w : World) (r : Request) : (a.Get w r).2 = w := by
  unfold App.Get
  simp only
  split
  · rfl
  · split
    · rfl
    · split
      · rfl
      · split <;> rfl

/-- The handler `Get` on a record file that can be opened and read, with a response
writer that accepts the contents. -/
theorem Get_ok (a : App) (w : World) (r : Request) (data : Bytes) (wr rm : Bool)
    (hn : w.fs (a.jsonpath r.identifier) = .file data wr rm true true)
    (hw : r.responseWrite data = none) :
    a.Get w r = (⟨200, data⟩, w) := by
  simp [App.Get, osStat, osIsNotExist, osOpen, ioutilReadAll, hn, hw]

/-- What `Get` answers depends on the files through the node of the record file only. -/
theorem Get_response_of_record (a : App) (w w2 : World) (r : Request)
    (h : w2.fs (a.jsonpath r.identifier) = w.fs (a.jsonpath r.identifier)) :
    (a.Get w2 r).1 = (a.Get w r).1 := by
  unfold App.Get osStat osOpen
  simp only [h]
  cases hn : w.fs (a.jsonpath r.identifier) with
  | absent => simp [osIsNotExist]
  | blocked => simp [osIsNotExist]
  | file d wr rm op rd =>
    cases op with
    | false => simp [osIsNotExist]
    | true =>
      cases rd with
      | false => simp [osIsNotExist, ioutilReadAll]
      | true =>
        cases hw : r.responseWrite d <;> simp [osIsNotExist, ioutilReadAll, hw]

/-- A successful `ioutil.WriteFile` on a path that was no file created the file, which
can be opened and read. -/
theorem ioutilWriteFile_created (fs fs2 : FS) (p : String) (d : Bytes)
    (hnf : ¬ fileExists fs p) (h : ioutilWriteFile fs p d = .ok fs2) :
    fs2 p = .file d true true true true := by
  unfold ioutilWriteFile at h
  unfold fileExists at hnf
  split at h
  · cases h; simp
  · rename_i hn; simp [hn, Node.isFile] at hnf
  · cases h
  · cases h

/-- When `Add` answers 200 the record file is the file `Add` created, holding the
serialization of the normalized record. -/
theorem Add_success_created (L : Lib) (a : App) (w : World) (r : Request)
    (parsed : ChangeRequest)
    (hp : parsebody L r = .ok parsed) (h : (a.Add L w r).1.status = 200) :
    ∃ change json, InitChangeRequest L parsed = .ok change ∧ L.jsonMarshal change = .ok json ∧
      (a.Add L w r).2.fs (a.jsonpath parsed.Identifier) = .file json true true true true := by
  have hne := jsonpath_ne_configpath a parsed.Identifier
  unfold App.Add at h ⊢
  simp only [hp] at h ⊢
  cases hi : InitChangeRequest L parsed with
  | error e => simp [hi, httpError] at h
  | ok change =>
    have hcid : change.Identifier = parsed.Identifier := (InitChangeRequest_keeps L _ _ hi).1
    simp only [hi, hcid] at h ⊢
    cases hg : a.GenerateConfig change with
    | error e => simp [hg, httpError] at h
    | ok cfg =>
      simp only [hg] at h ⊢
      by_cases h1 : osStat w.fs (a.jsonpath parsed.Identifier) = none
      · simp [h1, httpError] at h
      · by_cases h2 : osStat w.fs (a.configpath parsed.Identifier) = none
        · simp [h1, h2, httpError] at h
        · simp only [h1, h2, if_false] at h ⊢
          have hnf : ¬ fileExists w.fs (a.jsonpath parsed.Identifier) :=
            fun hx => h1 ((osStat_eq_none_iff _ _).mpr hx)
          unfold App.writeAndSignal at h ⊢
          cases hm : L.jsonMarshal change with
          | error e => simp [hm, httpError] at h
          | ok json =>
            cases hw1 : ioutilWriteFile w.fs (a.jsonpath parsed.Identifier) json with
            | error e => simp [hm, hw1, httpError] at h
            | ok fs1 =>
              cases hw2 : ioutilWriteFile fs1 (a.configpath parsed.Identifier) cfg with
              | error e => simp [hm, hw1, hw2, httpError] at h
              | ok fs2 =>
                have c1 := ioutilWriteFile_created _ _ _ _ hnf hw1
                obtain ⟨_, o2, _⟩ := ioutilWriteFile_ok _ _ _ _ hw2
                have hfs := SignalContainers_fs a { w with fs := fs2 }
                refine ⟨change, json, rfl, hm, ?_⟩
                simp only [hm, hw1, hw2]
                cases hs : a.SignalContainers { w with fs := fs2 } with
                | mk e w2 =>
                  rw [hs] at hfs
                  simp only at hfs
                  cases e with
                  | some err => simp [hm, hw1, hw2, hs, httpError] at h
                  | none =>
                    simp only [hfs]
                    rw [o2 _ hne]
                    exact c1

/-- Claim C7, as the code has it: when `Add` answers 200 for a body that parses to a
record of identifier `id` (so that neither file of `id` existed before), the record
file holds the JSON serialization of the normalized record, which has the
identifier and the URL of the body; an immediately following `Get` of `id` whose
response write succeeds answers 200 with exactly those bytes and leaves the world
as `Add` left it (no file changed, no call to Docker); and the bytes deserialize to
the normalized record when `json.Unmarshal` inverts `json.Marshal` on it. -/
theorem C7_get_after_add (L : Lib) (a : App) (w : World) (r rget : Request)
    (parsed change : ChangeRequest) (id : String)
    (hp : parsebody L r = .ok parsed) (hid : parsed.Identifier = id)
    (hi : InitChangeRequest L parsed = .ok change)
    (hok : (a.Add L w r).1.status = 200)
    (hget : rget.identifier = id)
    (hwrite : ∀ b, L.jsonMarshal change = .ok b → rget.responseWrite b = none) :
    ∃ bytes, L.jsonMarshal change = .ok bytes ∧
      fileData (a.Add L w r).2.fs (a.jsonpath id) = some bytes ∧
      a.Get (a.Add L w r).2 rget = (⟨200, bytes⟩, (a.Add L w r).2) ∧
      ((∀ b, L.jsonMarshal change = .ok b → L.jsonUnmarshal b = .ok change) →
        L.jsonUnmarshal bytes = .ok change) ∧
      change.Identifier = parsed.Identifier ∧ change.URL = parsed.URL ∧
      ¬ fileExists w.fs (a.jsonpath id) ∧ ¬ fileExists w.fs (a.configpath id) := by
  obtain ⟨change2, _, json, hi2, _, hm, hj, _, n1, n2⟩ := Add_success L a w r parsed hp hok
  obtain ⟨change3, json3, hi3, hm3, hnode⟩ := Add_success_created L a w r parsed hp hok
  have hch : change2 = change := by
    rw [hi] at hi2
    exact (Except.ok.inj hi2).symm
  have hch3 : change3 = change := by
    rw [hi] at hi3
    exact (Except.ok.inj hi3).symm
  subst hch
  subst hch3
  have hj3 : json3 = json := by
    rw [hm] at hm3
    exact (Except.ok.inj hm3).symm
  subst hj3
  subst hid
  obtain ⟨k1, k2⟩ := InitChangeRequest_keeps L parsed _ hi
  refine ⟨json3, hm, hj, ?_, fun hrt => hrt json3 hm, k1, k2, n1, n2⟩
  exact Get_ok a _ rget json3 true true (by rw [hget]; exact hnode) (hwrite json3 hm)

/-- Claim C7, witness: after `app1` is created in the empty world, `Get` answers
200 with the stored record, whose host and port are those of the URL. -/
theorem C7_witness :
    ∃ bytes, exampleMarshal ⟨"app1", "http://svc.local:9090", "svc.local", "9090"⟩ = .ok bytes ∧
      exampleApp.Get exampleWorld exampleGetRequest = (⟨200, bytes⟩, exampleWorld) ∧
      exampleUnmarshal bytes = .ok ⟨"app1", "http://svc.local:9090", "svc.local", "9090"⟩ :=
  have h := C7_get_after_add exampleLib exampleApp emptyWorld exampleAddRequest exampleGetRequest
    ⟨"app1", "http://svc.local:9090", "", ""⟩
    ⟨"app1", "http://svc.local:9090", "svc.local", "9090"⟩ "app1" rfl rfl rfl (by decide) rfl
    (fun _ _ => rfl)
  h.elim fun bytes hb => ⟨bytes, hb.1, hb.2.2.1, hb.2.2.2.1 (fun b hb2 => by
    have hb3 : b = "\x7b\"identifier\":\"app1\",\"url\":\"http://svc.local:9090\",\"host\":\"svc.local\",\"port\":\"9090\"\x7d" :=
      (Except.ok.inj hb2).symm
    rw [hb3]
    rfl)⟩

/-- Claim C7, counterexample: `app2` is created with the URL `http://%ff:80/`, whose
host is the byte 0xFF, and `Add` answers 200; `Get` answers 200 with the stored
bytes, in which the host is written as the escape for U+FFFD, so that they
deserialize to a host of three bytes and not to the host of the normalized record.
And after `app1` is created, a `Get` whose response cannot be written answers 500. -/
theorem C7_counterexample :
    ((parsebody coercingLib coercingAddRequest).toOption.bind
        (fun c => (InitChangeRequest coercingLib c).toOption)) =
      some ⟨"app2", "http://%ff:80/", "\xff", "80"⟩ ∧
    (exampleApp.Add coercingLib emptyWorld coercingAddRequest).1.status = 200 ∧
    (exampleApp.Get (exampleApp.Add coercingLib emptyWorld coercingAddRequest).2
        coercingGetRequest).1 =
      ⟨200, "\x7b\"identifier\":\"app2\",\"url\":\"http://%ff:80/\",\"host\":\"\\ufffd\",\"port\":\"80\"\x7d"⟩ ∧
    (coercingLib.jsonUnmarshal (exampleApp.Get
        (exampleApp.Add coercingLib emptyWorld coercingAddRequest).2
        coercingGetRequest).1.body).toOption =
      some ⟨"app2", "http://%ff:80/", "\xef\xbf\xbd", "80"⟩ ∧
    (⟨"app2", "http://%ff:80/", "\xef\xbf\xbd", "80"⟩ : ChangeRequest) ≠
      ⟨"app2", "http://%ff:80/", "\xff", "80"⟩ ∧
    (exampleApp.Add exampleLib emptyWorld exampleAddRequest).1.status = 200 ∧
    (exampleApp.Get (exampleApp.Add exampleLib emptyWorld exampleAddRequest).2
        exampleGetRequestGone).1.status = 500 := by
  refine ⟨by decide, by decide, by decide, by decide, by decide, by decide, by decide⟩

/-- Claim C8, as the code has it: after `Update` of `id` answers 200, the record
file of `id` holds the serialization of the normalized body, whose identifier is
the identifier of the body; so the stored identifier is `id` when the body carries
`id`, and the entry stays stored under the key `id`, both files existing. -/
theorem C8_update_stores_body_identifier (L : Lib) (a : App) (w : World) (r : Request)
    (parsed : ChangeRequest)
    (hp : parsebody L r = .ok parsed) (hok : (a.Update L w r).1.status = 200) :
    ∃ change json, InitChangeRequest L parsed = .ok change ∧
      L.jsonMarshal change = .ok json ∧
      fileData (a.Update L w r).2.fs (a.jsonpath r.identifier) = some json ∧
      change.Identifier = parsed.Identifier ∧
      (parsed.Identifier = r.identifier → change.Identifier = r.identifier) ∧
      fileExists (a.Update L w r).2.fs (a.configpath r.identifier) := by
  obtain ⟨change, cfg, json, hi, _, hm, hj, hc, _, _⟩ := Update_success L a w r parsed hp hok
  obtain ⟨k1, _⟩ := InitChangeRequest_keeps L parsed change hi
  exact ⟨change, json, hi, hm, hj, k1, fun h => k1.trans h, fileExists_of_fileData _ _ _ hc⟩

/-- Claim C8, witness: the update of `app1` with a body that carries `other` is
applied at the concrete world. -/
theorem C8_witness :
    ∃ change json, InitChangeRequest exampleLib ⟨"other", "http://svc.local:9091", "", ""⟩ =
        .ok change ∧
      exampleMarshal change = .ok json ∧
      fileData (exampleApp.Update exampleLib exampleWorld exampleUpdateRequest).2.fs
        "/etc/nginx/conf.d/app1.json" = some json ∧
      change.Identifier = "other" :=
  have h := C8_update_stores_body_identifier exampleLib exampleApp exampleWorld
    exampleUpdateRequest ⟨"other", "http://svc.local:9091", "", ""⟩ rfl (by decide)
  h.elim fun change hc => hc.elim fun json hj => ⟨change, json, hj.1, hj.2.1, hj.2.2.1, hj.2.2.2.1⟩

/-- Claim C8, counterexample: `app1` is created with the record identifier `app1`;
an update of `app1` whose body carries the identifier `other` answers 200, and the
record then stored in the record file of `app1` has the identifier `other`. -/
theorem C8_counterexample :
    (fileData exampleWorld.fs (exampleApp.jsonpath "app1")).map
        (fun b => (exampleUnmarshal b).toOption.map (fun c => c.Identifier)) =
      some (some "app1") ∧
    exampleUpdateRequest.identifier = "app1" ∧
    (exampleApp.Update exampleLib exampleWorld exampleUpdateRequest).1.status = 200 ∧
    (fileData (exampleApp.Update exampleLib exampleWorld exampleUpdateRequest).2.fs
        (exampleApp.jsonpath "app1")).map
        (fun b => (exampleUnmarshal b).toOption.map (fun c => c.Identifier)) =
      some (some "other") ∧
    (fileData (exampleApp.Update exampleLib exampleWorld exampleUpdateRequest).2.fs
        (exampleApp.jsonpath "app1")).map
        (fun b => (exampleUnmarshal b).toOption.map (fun c => c.Identifier)) ≠
      some (some "app1") := by
  refine ⟨by decide, rfl, by decide, by decide, by decide⟩

/-- Claim C9, as the code has it: `Get` examines the record file only, and what it
answers does not depend on the configuration file.  When the record file does not
exist, whether or not the configuration file does, it answers 404 with an error
text; it never answers 200 when the record file is no existing file; when the
record file exists, whether or not the configuration file does, it answers 200 with
the stored bytes if opening and reading the record and writing the response raise
no error, and 500 otherwise.  It never changes the world. -/
theorem C9_get_examines_record_only (a : App) (w : World) (r : Request) :
    (fileMissing w.fs (a.jsonpath r.identifier) →
      (a.Get w r).1.status = 404 ∧
      (a.Get w r).1.body = errorsWrap
        (OSError.notExist.text "stat" (a.jsonpath r.identifier))
        ("path does not exist: " ++ a.jsonpath r.identifier) ++ "\n") ∧
    (¬ fileExists w.fs (a.jsonpath r.identifier) → (a.Get w r).1.status ≠ 200) ∧
    (∀ data, fileData w.fs (a.jsonpath r.identifier) = some data →
      (osOpen w.fs (a.jsonpath r.identifier)).toBool = true →
      (∀ reader, osOpen w.fs (a.jsonpath r.identifier) = .ok reader →
        (ioutilReadAll (a.jsonpath r.identifier) reader).toBool = true) →
      r.responseWrite data = none →
      (a.Get w r).1 = ⟨200, data⟩) ∧
    (fileExists w.fs (a.jsonpath r.identifier) →
      (a.Get w r).1.status = 200 ∨ (a.Get w r).1.status = 500) ∧
    (∀ n : Node,
      (a.Get { w with fs := setNode w.fs (a.configpath r.identifier) n } r).1 = (a.Get w r).1) ∧
    (a.Get w r).2 = w := by
  refine ⟨fun hm => ?_, fun hn => ?_, fun data hd ho hr hw => ?_, fun hex => ?_, fun n => ?_,
    Get_world a w r⟩
  · unfold fileMissing at hm
    simp [App.Get, osStat, osIsNotExist, hm, httpError, errorText]
  · unfold fileExists at hn
    cases hf : w.fs (a.jsonpath r.identifier) with
    | absent => simp [App.Get, osStat, osIsNotExist, hf, httpError]
    | blocked => simp [App.Get, osStat, osIsNotExist, osOpen, hf, httpError]
    | file d wr rm op rd => simp [hf, Node.isFile] at hn
  · unfold fileData at hd
    cases hf : w.fs (a.jsonpath r.identifier) with
    | absent => simp [hf] at hd
    | blocked => simp [hf] at hd
    | file d wr rm op rd =>
      simp only [hf, Option.some.injEq] at hd
      subst hd
      cases op with
      | false => simp [osOpen, hf, Except.toBool] at ho
      | true =>
        cases rd with
        | false =>
          have := hr ⟨d, false⟩ (by simp [osOpen, hf])
          simp [ioutilReadAll, Except.toBool] at this
        | true => rw [Get_ok a w r d wr rm hf hw]
  · unfold fileExists at hex
    cases hf : w.fs (a.jsonpath r.identifier) with
    | absent => simp [hf, Node.isFile] at hex
    | blocked => simp [hf, Node.isFile] at hex
    | file d wr rm op rd =>
      cases op with
      | false => right; simp [App.Get, osStat, osIsNotExist, osOpen, hf, httpError]
      | true =>
        cases rd with
        | false =>
          right; simp [App.Get, osStat, osIsNotExist, osOpen, ioutilReadAll, hf, httpError]
        | true =>
          cases hw : r.responseWrite d with
          | none => left; rw [Get_ok a w r d wr rm hf hw]
          | some err =>
            right
            simp [App.Get, osStat, osIsNotExist, osOpen, ioutilReadAll, hf, hw, httpError]
  · apply Get_response_of_record
    have hne := jsonpath_ne_configpath a r.identifier
    simp [setNode, hne]

/-- Claim C9, witness: with only the configuration file of `app1`, `Get` answers
404; with only the record file it answers 200 with the record; with both files and
a record that cannot be opened it answers 500. -/
theorem C9_witness :
    (fileExists configOnlyWorld.fs "/etc/nginx/conf.d/app1.conf" ∧
      (exampleApp.Get configOnlyWorld exampleGetRequest).1.status = 404) ∧
    (exampleApp.Get halfWorld exampleGetRequest).1 = ⟨200, exampleBody⟩ ∧
    (exampleApp.Get lockedWorld exampleGetRequest).1.status = 500 :=
  ⟨⟨by decide,
    ((C9_get_examines_record_only exampleApp configOnlyWorld exampleGetRequest).1 rfl).1⟩,
   (C9_get_examines_record_only exampleApp halfWorld exampleGetRequest).2.2.1 exampleBody rfl
      rfl (fun reader hr => by
        have : reader = ⟨exampleBody, true⟩ := (Except.ok.inj hr).symm
        rw [this]; rfl) rfl,
   ((C9_get_examines_record_only exampleApp lockedWorld exampleGetRequest).2.2.2.1
      (by decide)).resolve_left (by decide)⟩

/-- Claim C9, counterexample: only the record file of `app1` exists, the
configuration file does not, and `Get` answers 200 with the bytes of the record. -/
theorem C9_counterexample :
    fileExists halfWorld.fs (exampleApp.jsonpath "app1") ∧
    fileMissing halfWorld.fs (exampleApp.configpath "app1") ∧
    exampleGetRequest.identifier = "app1" ∧
    (exampleApp.Get halfWorld exampleGetRequest).1 = ⟨200, exampleBody⟩ ∧
    ¬ ((exampleApp.Get halfWorld exampleGetRequest).1.status = 404 ∨
        (exampleApp.Get halfWorld exampleGetRequest).1.status = 500) := by
  refine ⟨by decide, by decide, rfl, by decide, by decide⟩

end NginxAppConfigurer
